import Mathlib

/-!
# Minerva chess engine — verification of the specification against the code

Shallow embedding of the Minerva engine core (`src/src/*.{cpp,hpp}`) in
Lean 4, together with theorems settling the specification claims.

Conventions:
* C++ `int` values are modelled as `Int`; C++ integer division (which
  truncates toward zero) is modelled with `Int.tdiv`.
* 64-bit bitboards are modelled as `Nat` kept below `2^64`; the C++
  bitwise operators map to `&&&`, `|||`, `^^^`, `<<<` together with an
  explicit 64-bit mask where a C++ shift would discard high bits.
* Functions supplied by the external rules library
  (`external/chess/include/chess.hpp`, not part of this repository) are
  modelled from the specification, as recorded in their doc comments.
-/

namespace Minerva

/-! ## Score utilities (src/src/utils.hpp) -/

def INF : Int := 30000

def MATE : Int := 32000

def MATE_IN_MAX : Int := 10000

/-- `utils::mate_score` from src/src/utils.hpp. -/
def mate_score (plies_to_mate : Int) : Int := MATE - plies_to_mate

/-- `utils::is_mate_score` from src/src/utils.hpp. -/
def is_mate_score (s : Int) : Bool :=
  s > MATE - MATE_IN_MAX || s < -MATE + MATE_IN_MAX

/-- `utils::to_tt` from src/src/utils.hpp. -/
def to_tt (score ply : Int) : Int :=
  if score > MATE - MATE_IN_MAX then score + ply
  else if score < -MATE + MATE_IN_MAX then score - ply
  else score

/-- `utils::from_tt` from src/src/utils.hpp. -/
def from_tt (score ply : Int) : Int :=
  if score > MATE - MATE_IN_MAX then score - ply
  else if score < -MATE + MATE_IN_MAX then score + ply
  else score

/-! ## Transposition table (src/src/tt.hpp) -/

/-- `TTEntry` from src/src/tt.hpp.  The C++ fields `key : uint64_t`,
`move : uint16_t`, `flag : uint8_t` and `gen : uint8_t` are modelled as
`Nat`; the signed fields `score : int16_t` and `depth : int8_t` as `Int`. -/
structure TTEntry where
  key : Nat
  move : Nat
  score : Int
  depth : Int
  flag : Nat
  gen : Nat
  deriving DecidableEq

/-- The C++ default member initializers of `TTEntry`
(`key = 0, move = 0, score = 0, depth = -1, flag = 0, gen = 0`). -/
def TTEntry.empty : TTEntry :=
  { key := 0, move := 0, score := 0, depth := -1, flag := 0, gen := 0 }

/-- Conversion to `int8_t`, as performed by the C++ cast in
`TranspositionTable::store`. -/
def i8cast (x : Int) : Int := (x + 128).emod 256 - 128

/-- `sizeof(TTEntry)` in C++: 8 + 2 + 2 + 1 + 1 + 1 = 15 bytes of fields,
padded to 16 by the 8-byte alignment of `key`. -/
def ttEntrySize : Nat := 16

/-- `TranspositionTable` from src/src/tt.hpp.  The backing
`std::vector<TTEntry>` of length `size` is modelled as the function
`table` (only indices below `size` are ever produced by `index`). -/
structure TranspositionTable where
  table : Nat → TTEntry
  size : Nat
  mask : Nat
  gen : Nat

namespace TranspositionTable

/-- `TranspositionTable::index` from src/src/tt.hpp:
`(size_t)key & mask_`. -/
def index (t : TranspositionTable) (key : Nat) : Nat := key &&& t.mask

/-- `TranspositionTable::resize` from src/src/tt.hpp: the vector is
re-assigned to `max(1, mb*1024*1024 / sizeof(TTEntry))` default-constructed
entries, `mask_ = n - 1`, `gen_ = 0`. -/
def resize (mb : Nat) : TranspositionTable :=
  let bytes := mb * 1024 * 1024
  let n := max 1 (bytes / ttEntrySize)
  { table := fun _ => TTEntry.empty, size := n, mask := n - 1, gen := 0 }

/-- `TranspositionTable::probe` from src/src/tt.hpp. -/
def probe (t : TranspositionTable) (key : Nat) : Option TTEntry :=
  let e := t.table (t.index key)
  if e.key = key then some e else none

/-- `TranspositionTable::store` from src/src/tt.hpp.  The stored score
`(int16_t)std::max(-MATE, std::min(MATE, score))` lies in
`[-32000, 32000]`, inside the `int16_t` range, so the C++ cast is the
identity there and is omitted. -/
def store (t : TranspositionTable) (key move : Nat) (depth score : Int)
    (flag : Nat) : TranspositionTable :=
  let i := t.index key
  let e := t.table i
  if e.key ≠ key ∨ depth ≥ e.depth then
    { t with table := fun j => if j = i then
        { key := key, move := move,
          score := max (-Minerva.MATE) (min Minerva.MATE score),
          depth := i8cast (min depth 127), flag := flag, gen := t.gen }
      else t.table j }
  else t

end TranspositionTable

/-! ## Search limits and UCI time budgeting (src/src/search.hpp, src/src/uci.cpp) -/

/-- `SearchLimits` from src/src/search.hpp. -/
structure SearchLimits where
  timeMs : Int
  depth : Int
  infinite : Bool
  deriving DecidableEq

/-- The values parsed from a `go` command by `UciDriver::parseLimits`
(src/src/uci.cpp lines 120-135): each numeric token defaults to −1
except the increments, which default to 0. -/
structure GoParams where
  wtime : Int := -1
  btime : Int := -1
  winc : Int := 0
  binc : Int := 0
  movestogo : Int := -1
  movetime : Int := -1
  depth : Int := -1
  infinite : Bool := false
  deriving DecidableEq

/-- `std::clamp(v, lo, hi)`: `lo` if `v < lo`, else `hi` if `hi < v`,
else `v`. -/
def cppClamp (v lo hi : Int) : Int :=
  if v < lo then lo else if hi < v then hi else v

/-- `UciDriver::parseLimits` from src/src/uci.cpp (lines 114-154), after
token parsing: the decision tree on `infinite`, `movetime`, `depth` and
the side-to-move clock. -/
def parseLimits (whiteToMove : Bool) (g : GoParams) : SearchLimits :=
  if g.infinite then { timeMs := 24 * 60 * 60 * 1000, depth := 0, infinite := true }
  else if g.movetime > 0 then { timeMs := g.movetime, depth := 0, infinite := false }
  else if g.depth > 0 then { timeMs := 30 * 1000, depth := g.depth, infinite := false }
  else
    let myTime := if whiteToMove then g.wtime else g.btime
    let myInc := if whiteToMove then g.winc else g.binc
    if myTime ≥ 0 then
      let mtg := if g.movestogo > 0 then g.movestogo else 30
      let slice := Int.tdiv myTime (max 1 mtg)
      let budget := slice + Int.tdiv myInc 2
      { timeMs := cppClamp budget 20 (max 50 (myTime - 10)), depth := 0,
        infinite := false }
    else { timeMs := 500, depth := 0, infinite := false }

/-! ## The rules-library interface

The legal-move generator, make/unmake, check detection and board
accessors come from the external chess rules library
(`external/chess/include/chess.hpp`), which is not part of this
repository; spec §1 declares it an external collaborator and §3/§6 give
only its interface.  It is therefore modelled abstractly, from the
specification. -/

/-- Modelled from the spec: the interface the search core consumes from
the external rules library (spec §3 "Data model" and §6).  `Board` and
`Move` are abstract types.  Per spec §3, a `Move` "has accessors for
origin square, destination square, move kind (normal | capture |
en-passant | castle | promotion), and promotion piece", so the
capture/en-passant/promotion tests are position-independent move-kind
accessors (`isCapture` is true for en-passant captures as well);
`pieceTypeAt` returns 0..5 for pawn..king and 6 for an empty square;
`packMove`/`unpackMove` are the lossless 16-bit packing of spec §3,
with the reserved `NO_MOVE` (packed 0) and any non-move payload
unpacking to `none`. -/
structure Rules (Board Move : Type) where
  legalMoves : Board → List Move
  makeMove : Board → Move → Board
  inCheck : Board → Bool
  isCapture : Move → Bool
  isPromotion : Move → Bool
  isEnPassant : Move → Bool
  moveFrom : Move → Nat
  moveTo : Move → Nat
  pieceTypeAt : Board → Nat → Nat
  hash : Board → Nat
  packMove : Move → Nat
  unpackMove : Nat → Option Move

/-! ## Move-ordering state (src/src/move_order.hpp) -/

/-- `History` from src/src/move_order.hpp: a 64×64 `int16_t` table,
modelled as a total function. -/
structure History where
  table : Nat → Nat → Int

/-- `History::clear`. -/
def History.clear : History := { table := fun _ _ => 0 }

/-- `History::bonus`: add `v` at `(from, to)`, clamped to
`[-30000, 30000]`. -/
def History.bonus {B M : Type} (R : Rules B M) (h : History) (m : M)
    (v : Int) : History :=
  let f := R.moveFrom m
  let t := R.moveTo m
  let nv := h.table f t + v
  { table := fun a c =>
      if a = f ∧ c = t then max (-30000) (min 30000 nv) else h.table a c }

/-- `History::score`. -/
def History.mscore {B M : Type} (R : Rules B M) (h : History) (m : M) : Int :=
  h.table (R.moveFrom m) (R.moveTo m)

/-- `Killers` from src/src/move_order.hpp: two killer slots per ply;
the C++ `Move::NO_MOVE` initial value is modelled as `none`. -/
structure Killers (M : Type) where
  m1 : Nat → Option M
  m2 : Nat → Option M

/-- `Killers::clear`. -/
def Killers.clear {M : Type} : Killers M :=
  { m1 := fun _ => none, m2 := fun _ => none }

/-- `Killers::push`: refuse duplicates, else shift `m1` into `m2`. -/
def Killers.push {M : Type} [DecidableEq M] (k : Killers M) (ply : Nat)
    (m : M) : Killers M :=
  if k.m1 ply = some m ∨ k.m2 ply = some m then k
  else
    { m1 := fun p => if p = ply then some m else k.m1 p,
      m2 := fun p => if p = ply then k.m1 ply else k.m2 p }

/-- `Killers::is_killer`. -/
def Killers.isKiller {M : Type} [DecidableEq M] (k : Killers M) (ply : Nat)
    (m : M) : Bool :=
  decide (k.m1 ply = some m) || decide (k.m2 ply = some m)

/-- The piece-value array `V[7] = {100, 320, 330, 500, 900, 20000, 0}`
of `mvv_lva` (src/src/move_order.hpp). -/
def pieceValue (i : Nat) : Int :=
  [100, 320, 330, 500, 900, 20000, 0].getD i 0

/-- `mvv_lva` from src/src/move_order.hpp.  For an en-passant move the
victim square is `to ^^^ 8` (the pawn behind the target square; spec
§4.4), matching the rules library's `Square::ep_square`. -/
def mvv_lva {B M : Type} (R : Rules B M) (b : B) (m : M) : Int :=
  if R.isCapture m = false then 0
  else
    let victimVal :=
      if R.isEnPassant m then pieceValue (R.pieceTypeAt b (R.moveTo m ^^^ 8))
      else pieceValue (R.pieceTypeAt b (R.moveTo m))
    let attackerVal := pieceValue (R.pieceTypeAt b (R.moveFrom m))
    10000 + victimVal * 16 - attackerVal

/-! ## Search (src/src/search.cpp) -/

/-- The per-searcher mutable state of class `Search`
(src/src/search.hpp): node counter, transposition table, history and
killers.  `Search::timeUp` reads the wall clock and the shared atomic
stop flag; those environment reads are modelled by the oracle
`timeline`, consumed one query at a time through `tquery`. -/
structure SState (M : Type) where
  nodes : Nat
  tt : TranspositionTable
  hist : History
  kil : Killers M
  timeline : Nat → Bool
  tquery : Nat

/-- One call to `Search::timeUp` (src/src/search.cpp lines 22-27):
returns the oracle's next answer and advances the query counter. -/
def timeUpQ {M : Type} (st : SState M) : Bool × SState M :=
  (st.timeline st.tquery, { st with tquery := st.tquery + 1 })

/-- The move-scoring lambda of `Search::orderMoves`
(src/src/search.cpp lines 30-35). -/
def scoreOf {B M : Type} [DecidableEq M] (R : Rules B M) (b : B)
    (hist : History) (kil : Killers M) (ttMove : Option M) (ply : Nat)
    (m : M) : Int :=
  if some m = ttMove then 30000000
  else if R.isCapture m then 20000000 + mvv_lva R b m
  else if kil.isKiller ply m then 15000000
  else 10000000 + History.mscore R hist m

/-- `Search::orderMoves` (src/src/search.cpp lines 29-39): sort the move
list by descending score. -/
def orderMoves {B M : Type} [DecidableEq M] (R : Rules B M) (b : B)
    (hist : History) (kil : Killers M) (ttMove : Option M) (ply : Nat)
    (ml : List M) : List M :=
  ml.mergeSort (fun a c =>
    decide (scoreOf R b hist kil ttMove ply c ≤ scoreOf R b hist kil ttMove ply a))

/-- The body of `Search::qsearch` after the periodic time-out check
(src/src/search.cpp lines 44-91); `qs` is the recursive call. -/
def qnode {B M : Type} (R : Rules B M) (eval : B → Int)
    (qs : SState M → B → Int → Int → Nat → Int × SState M)
    (st2 : SState M) (b : B) (alpha beta : Int) (ply : Nat) :
    Int × SState M :=
  if R.inCheck b then
    let evs := R.legalMoves b
    if evs.isEmpty then (-(mate_score (ply : Int)), st2)
    else
      let r := evs.foldl (fun acc m =>
        if acc.2.2.1 then acc
        else
          let rc := qs acc.2.2.2 (R.makeMove b m) (-beta) (-acc.2.1) (ply + 1)
          let sc := -rc.1
          let best := max acc.1 sc
          let alpha := max acc.2.1 best
          (best, alpha, decide (alpha ≥ beta), rc.2))
        ((-INF : Int), alpha, false, st2)
      (r.1, r.2.2.2)
  else
    let stand := eval b
    if stand ≥ beta then (stand, st2)
    else
      let alpha := max alpha stand
      let ml := R.legalMoves b
      let caps := ml.filter (fun m => R.isCapture m || R.isPromotion m)
      if caps.isEmpty then (stand, st2)
      else
        let caps := caps.mergeSort (fun a c =>
          decide (mvv_lva R b c ≤ mvv_lva R b a))
        let r := caps.foldl (fun acc m =>
          if acc.2.2.1 then acc
          else
            let rc := qs acc.2.2.2 (R.makeMove b m) (-beta) (-acc.2.1) (ply + 1)
            let sc := -rc.1
            let best := max acc.1 sc
            let alpha := max acc.2.1 best
            (best, alpha, decide (alpha ≥ beta), rc.2))
          (stand, alpha, false, st2)
        (r.1, r.2.2.2)

/-- `Search::qsearch` (src/src/search.cpp lines 41-92).  The C++
recursion is bounded by captures running out and by the periodic
time-out check; the `fuel` argument makes the recursion structural,
with exhaustion returning the static evaluation exactly like the
time-out path (line 42).  The node counter is incremented and the time
oracle consulted only every 1024th node, matching the short-circuit of
`(nodes_++ & 0x3FF) == 0 && timeUp()`. -/
def qsearch {B M : Type} (R : Rules B M) (eval : B → Int) :
    Nat → SState M → B → Int → Int → Nat → Int × SState M
  | 0, st, b, _, _, _ => (eval b, st)
  | fuel + 1, st, b, alpha, beta, ply =>
    let st1 : SState M := { st with nodes := st.nodes + 1 }
    if st.nodes &&& 0x3FF == 0 then
      let q := timeUpQ st1
      if q.1 then (eval b, q.2)
      else qnode R eval (fun s b2 a c p => qsearch R eval fuel s b2 a c p)
        q.2 b alpha beta ply
    else qnode R eval (fun s b2 a c p => qsearch R eval fuel s b2 a c p)
      st1 b alpha beta ply

/-- The sub-depth used for each recursive call in `Search::negamax`
(src/src/search.cpp lines 134-137): late-move reduction. -/
def lmrSubDepth (depth : Int) (movesSearched : Nat) (isCap isPromo : Bool) :
    Int :=
  let subDepth := depth - 1
  if subDepth > 0 ∧ movesSearched ≥ 4 ∧ isCap = false ∧ isPromo = false then
    subDepth - 1
  else subDepth

/-- The transposition-table block of `Search::negamax`
(src/src/search.cpp lines 102-111): either an early return value, or
updated window bounds. -/
def ttProbeOutcome (ttE : Option TTEntry) (depth alpha beta : Int)
    (ply : Nat) : Option Int × Int × Int :=
  match ttE with
  | none => (none, alpha, beta)
  | some e =>
    if e.depth ≥ depth then
      let ttScore := from_tt e.score (ply : Int)
      if e.flag = 0 then (some ttScore, alpha, beta)
      else
        let alpha1 := if e.flag = 1 ∧ ttScore > alpha then ttScore else alpha
        let beta1 := if e.flag = 2 ∧ ttScore < beta then ttScore else beta
        if alpha1 ≥ beta1 then (some ttScore, alpha1, beta1)
        else (none, alpha1, beta1)
    else (none, alpha, beta)

/-- The body of `Search::negamax` after the periodic time-out check
(src/src/search.cpp lines 97-172); `qs` is the quiescence search and
`ns` the recursive negamax call. -/
def nnode {B M : Type} [DecidableEq M] (R : Rules B M)
    (qs : SState M → B → Int → Int → Nat → Int × SState M)
    (ns : SState M → B → Int → Int → Int → Nat → Int × SState M)
    (st2 : SState M) (b : B) (depth alpha beta : Int) (ply : Nat) :
    Int × SState M :=
      let alphaOrig := alpha
      let key := R.hash b
      let ttE := st2.tt.probe key
      let ttMove : Option M := ttE.bind (fun e => R.unpackMove e.move)
      match ttProbeOutcome ttE depth alpha beta ply with
      | (some v, _, _) => (v, st2)
      | (none, alpha, beta) =>
        if depth ≤ 0 then qs st2 b alpha beta ply
        else
          let ml := R.legalMoves b
          if ml.isEmpty then
            ((if R.inCheck b then -(mate_score (ply : Int)) else 0), st2)
          else
            let depth1 := if R.inCheck b then depth + 1 else depth
            let ml1 := orderMoves R b st2.hist st2.kil ttMove ply ml
            let r := ml1.foldl (fun acc m =>
              if acc.2.2.2.2.1 then acc
              else
                let best := acc.1
                let bestMove := acc.2.1
                let alphaL := acc.2.2.1
                let ms := acc.2.2.2.1
                let stL := acc.2.2.2.2.2
                let b2 := R.makeMove b m
                let subDepth :=
                  lmrSubDepth depth1 ms (R.isCapture m) (R.isPromotion m)
                let rc := ns stL b2 subDepth (-beta) (-alphaL) (ply + 1)
                let sc := -rc.1
                let stM := rc.2
                let ms1 := ms + 1
                let best1 := if sc > best then sc else best
                let bestMove1 := if sc > best then some m else bestMove
                let quiet := !(R.isCapture m) && !(R.isPromotion m)
                let alpha1 := if sc > alphaL then sc else alphaL
                let stA := if sc > alphaL then
                    (if quiet then
                      { stM with
                        hist := stM.hist.bonus R m (min 2000 (100 + depth1 * depth1)),
                        kil := stM.kil.push ply m }
                    else stM)
                  else stM
                if alpha1 ≥ beta then
                  let stB := if quiet then
                      { stA with
                        hist := stA.hist.bonus R m (min 4000 (200 + depth1 * depth1)),
                        kil := stA.kil.push ply m }
                    else stA
                  (best1, bestMove1, alpha1, ms1, true, stB)
                else (best1, bestMove1, alpha1, ms1, false, stA))
              ((-INF : Int), (none : Option M), alpha, 0, false, st2)
            let best := r.1
            let bestMove := r.2.1
            let stF := r.2.2.2.2.2
            let flag : Nat :=
              if best ≤ alphaOrig then 2 else if best ≥ beta then 1 else 0
            let packed := match bestMove with
              | some m => R.packMove m
              | none => 0
            let stG : SState M :=
              { stF with
                tt := stF.tt.store key packed depth1 (to_tt best (ply : Int)) flag }
            (best, stG)

/-- `Search::negamax` (src/src/search.cpp lines 94-173), state-threaded;
`fuel` bounds the recursion (check extensions keep the C++ recursion
from being structural in `depth`), with exhaustion returning the static
evaluation exactly like the time-out path (line 95).  The node counter
handling matches the short-circuit of `(nodes_++ & 0x7FF) == 0 &&
timeUp()`. -/
def negamax {B M : Type} [DecidableEq M] (R : Rules B M) (eval : B → Int) :
    Nat → SState M → B → Int → Int → Int → Nat → Int × SState M
  | 0, st, b, _, _, _, _ => (eval b, st)
  | fuel + 1, st, b, depth, alpha, beta, ply =>
    let st1 : SState M := { st with nodes := st.nodes + 1 }
    if st.nodes &&& 0x7FF == 0 then
      let q := timeUpQ st1
      if q.1 then (eval b, q.2)
      else nnode R (fun s b2 a c p => qsearch R eval fuel s b2 a c p)
        (fun s b2 d a c p => negamax R eval fuel s b2 d a c p)
        q.2 b depth alpha beta ply
    else nnode R (fun s b2 a c p => qsearch R eval fuel s b2 a c p)
      (fun s b2 d a c p => negamax R eval fuel s b2 d a c p)
      st1 b depth alpha beta ply

/-- `SearchResult` from src/src/search.hpp;
`Move::NO_MOVE` is modelled as `none`. -/
structure SearchResult (M : Type) where
  best : Option M
  bestScore : Int

/-- `Search::extractPV` (src/src/search.cpp lines 255-271), walking the
transposition table for at most the given number of steps (64 at the
call site). -/
def extractPV {B M : Type} [DecidableEq M] (R : Rules B M)
    (tt : TranspositionTable) : Nat → B → List M
  | 0, _ => []
  | n + 1, b =>
    match tt.probe (R.hash b) with
    | none => []
    | some e =>
      if e.move = 0 then []
      else
        match R.unpackMove e.move with
        | none => []
        | some m =>
          if (R.legalMoves b).any (fun lm => decide (lm = m)) then
            m :: extractPV R tt n (R.makeMove b m)
          else []

/-- The iterative-deepening loop of `Search::go`
(src/src/search.cpp lines 194-248): `iters` counts the remaining
iterations (`maxDepth` at the start), `d` is the current depth; the
running state is `(best, bestScore, prevScore, searcher state)`.  The
`info` output of lines 225-247 has no effect on the result and is not
modelled. -/
def goLoop {B M : Type} [DecidableEq M] (R : Rules B M) (eval : B → Int)
    (fuel : Nat) (root : B) :
    Nat → Int → Option M × Int × Int × SState M → SearchResult M × SState M
  | 0, _, acc => ({ best := acc.1, bestScore := acc.2.1 }, acc.2.2.2)
  | iters + 1, d, acc =>
    let best := acc.1
    let bestScore := acc.2.1
    let prevScore := acc.2.2.1
    let st := acc.2.2.2
    let tu := (timeUpQ st).1
    let st := (timeUpQ st).2
    if tu then ({ best := best, bestScore := bestScore }, st)
    else
      let sr :=
        if d > 1 then
          let alpha := prevScore - 25
          let beta := prevScore + 25
          let r1 := negamax R eval fuel st root d alpha beta 0
          let tu2 := (timeUpQ r1.2).1
          let st3 := (timeUpQ r1.2).2
          if ¬tu2 = true ∧ (r1.1 ≤ alpha ∨ r1.1 ≥ beta) then
            negamax R eval fuel st3 root d (-INF) INF 0
          else (r1.1, st3)
        else negamax R eval fuel st root d (-INF) INF 0
      let score := sr.1
      let tu3 := (timeUpQ sr.2).1
      let st4 := (timeUpQ sr.2).2
      if tu3 then ({ best := best, bestScore := bestScore }, st4)
      else
        let pv := extractPV R st4.tt 64 root
        let best1 := match pv with
          | m :: _ => some m
          | [] => best
        goLoop R eval fuel root iters (d + 1) (best1, score, score, st4)

/-- `Search::go` (src/src/search.cpp lines 175-253). -/
def go {B M : Type} [DecidableEq M] (R : Rules B M) (eval : B → Int)
    (fuel : Nat) (st : SState M) (root : B) (lim : SearchLimits) :
    SearchResult M × SState M :=
  let st1 : SState M := { st with nodes := 0 }
  match R.legalMoves root with
  | [] => ({ best := none, bestScore := 0 }, st1)
  | m0 :: _ =>
    let maxDepth : Int := if lim.depth > 0 then lim.depth else 64
    goLoop R eval fuel root maxDepth.toNat 1 (some m0, -INF, 0, st1)

/-! ## Concrete instantiations of the rules interface, for evaluating the
generic search development on explicit inputs. -/

/-- A minimal concrete rules instance: one board state, one legal move. -/
def unitRules : Rules Unit Unit where
  legalMoves _ := [()]
  makeMove _ _ := ()
  inCheck _ := false
  isCapture _ := false
  isPromotion _ := false
  isEnPassant _ := false
  moveFrom _ := 0
  moveTo _ := 0
  pieceTypeAt _ _ := 6
  hash _ := 0
  packMove _ := 1
  unpackMove _ := none

/-- A searcher state whose time oracle reports the budget as already
exhausted on every query. -/
def stoppedState : SState Unit :=
  { nodes := 0, tt := TranspositionTable.resize 1, hist := History.clear,
    kil := Killers.clear, timeline := fun _ => true, tquery := 0 }

/-- A concrete rules instance for move-ordering computations: a board is
a map from square to piece type (6 = empty), a move is
`(from, to, capture flag)`. -/
def demoRules : Rules (Nat → Nat) (Nat × Nat × Bool) where
  legalMoves _ := []
  makeMove b _ := b
  inCheck _ := false
  isCapture m := m.2.2
  isPromotion _ := false
  isEnPassant _ := false
  moveFrom m := m.1
  moveTo m := m.2.1
  pieceTypeAt b sq := b sq
  hash _ := 0
  packMove _ := 1
  unpackMove _ := none

/-- A board with pawns (piece type 0) on squares 5 and 12, so that
`(5, 12, true)` is a pawn-takes-pawn capture. -/
def demoBoard : Nat → Nat := fun sq => if sq = 12 ∨ sq = 5 then 0 else 6

/-! ## Static evaluation (src/src/eval.cpp)

The evaluation reads the position through the rules library's bitboard
accessors; a position is modelled as its twelve piece bitboards plus
the side to move.  64-bit words are `Nat`s below `2^64`; squares are
0..63 with file `sq % 8` (a..h) and rank `sq / 8` (1..8 from white's
side). -/

/-- The 64-bit all-ones mask. -/
def M64 : Nat := 2 ^ 64 - 1

/-- `__builtin_popcountll`: number of set bits among the low 64. -/
def popc (x : Nat) : Nat := (List.range 64).countP (fun i => x.testBit i)

/-- The least set-bit index among the low 64 (64 when none), as
produced by `__builtin_ctzll` on a nonzero word. -/
def lsb (x : Nat) : Nat := (List.range 64).findIdx (fun i => x.testBit i)

/-- The set-bit indices of a 64-bit word in increasing order — the
order in which the C++ `while (bb) { ctz; bb &= bb - 1; }` loops visit
them. -/
def bits (x : Nat) : List Nat := (List.range 64).filter (fun i => x.testBit i)

/-- `fileMask` from `eval::evaluate` (eval.cpp line 221). -/
def fileMask (f : Nat) : Nat := 0x0101010101010101 <<< f

/-- `chess::Color`, restricted to the two proper colours. -/
inductive Color where
  | white
  | black
  deriving DecidableEq

/-- A chess position as the evaluation consumes it.  Modelled from the
spec (§3 "Position": piece-type bitboards, occupancy bitboards,
king-square lookup, side-to-move query); in a well-formed position the
twelve bitboards are pairwise disjoint, fit in 64 bits, and hold one
king each. -/
structure EvalBoard where
  wp : Nat
  wn : Nat
  wb : Nat
  wr : Nat
  wq : Nat
  wk : Nat
  bp : Nat
  bn : Nat
  bbi : Nat
  br : Nat
  bq : Nat
  bk : Nat
  stm : Color
  deriving DecidableEq

namespace EvalBoard

/-- `Board::pieces(pt, color)`: piece types 0..5 = pawn..king. -/
def pieces (b : EvalBoard) (pt : Nat) (c : Color) : Nat :=
  match c with
  | .white => [b.wp, b.wn, b.wb, b.wr, b.wq, b.wk].getD pt 0
  | .black => [b.bp, b.bn, b.bbi, b.br, b.bq, b.bk].getD pt 0

/-- `Board::us(color)`. -/
def us (b : EvalBoard) (c : Color) : Nat :=
  match c with
  | .white => b.wp ||| b.wn ||| b.wb ||| b.wr ||| b.wq ||| b.wk
  | .black => b.bp ||| b.bn ||| b.bbi ||| b.br ||| b.bq ||| b.bk

/-- `Board::occ()`. -/
def occ (b : EvalBoard) : Nat := b.us .white ||| b.us .black

/-- `Board::at(sq)`: the piece on a square as (type, colour), a mailbox
lookup modelled as a scan of the (disjoint) bitboards. -/
def atSq (b : EvalBoard) (sq : Nat) : Option (Nat × Color) :=
  if b.wp.testBit sq then some (0, .white)
  else if b.wn.testBit sq then some (1, .white)
  else if b.wb.testBit sq then some (2, .white)
  else if b.wr.testBit sq then some (3, .white)
  else if b.wq.testBit sq then some (4, .white)
  else if b.wk.testBit sq then some (5, .white)
  else if b.bp.testBit sq then some (0, .black)
  else if b.bn.testBit sq then some (1, .black)
  else if b.bbi.testBit sq then some (2, .black)
  else if b.br.testBit sq then some (3, .black)
  else if b.bq.testBit sq then some (4, .black)
  else if b.bk.testBit sq then some (5, .black)
  else none

/-- `Board::kingSq(color)`: the least set bit of the king bitboard. -/
def kingSq (b : EvalBoard) (c : Color) : Nat := lsb (b.pieces 5 c)

end EvalBoard

/-- Modelled from the spec: the rules library's `attacks::knight`
(external collaborator), the eight knight offsets clipped at the board
edge.  `sqId` maps in-range (file, rank) to the square index. -/
def sqId (f r : Int) : Option Nat :=
  if 0 ≤ f ∧ f < 8 ∧ 0 ≤ r ∧ r < 8 then some (r.toNat * 8 + f.toNat)
  else none

/-- Modelled from the spec: knight attack bitboard. -/
def knightAtt (sq : Nat) : Nat :=
  let f : Int := (sq % 8 : Nat)
  let r : Int := (sq / 8 : Nat)
  [((1 : Int), (2 : Int)), (2, 1), (2, -1), (1, -2),
   (-1, -2), (-2, -1), (-2, 1), (-1, 2)].foldl
    (fun acc d =>
      match sqId (f + d.1) (r + d.2) with
      | some t => acc ||| (1 <<< t)
      | none => acc) 0

/-- Modelled from the spec: one sliding-attack ray from (f, r) in
direction (df, dr) through occupancy `occ`: squares up to and including
the first occupied one. -/
def ray (occ : Nat) : Int → Int → Int → Int → Nat → Nat
  | _, _, _, _, 0 => 0
  | f, r, df, dr, steps + 1 =>
    match sqId (f + df) (r + dr) with
    | none => 0
    | some t =>
      (1 <<< t) ||| (if occ.testBit t then 0 else ray occ (f + df) (r + dr) df dr steps)

/-- Modelled from the spec: `attacks::rook`. -/
def rookAtt (occ sq : Nat) : Nat :=
  let f : Int := (sq % 8 : Nat)
  let r : Int := (sq / 8 : Nat)
  ray occ f r 1 0 7 ||| ray occ f r (-1) 0 7 |||
  ray occ f r 0 1 7 ||| ray occ f r 0 (-1) 7

/-- Modelled from the spec: `attacks::bishop`. -/
def bishopAtt (occ sq : Nat) : Nat :=
  let f : Int := (sq % 8 : Nat)
  let r : Int := (sq / 8 : Nat)
  ray occ f r 1 1 7 ||| ray occ f r 1 (-1) 7 |||
  ray occ f r (-1) 1 7 ||| ray occ f r (-1) (-1) 7

/-- Modelled from the spec: `attacks::queen`. -/
def queenAtt (occ sq : Nat) : Nat := rookAtt occ sq ||| bishopAtt occ sq

/-- PESTO piece values, midgame (eval.cpp line 18). -/
def MG_VALUE : List Int := [82, 337, 365, 477, 1025, 0]

/-- PESTO piece values, endgame (eval.cpp line 19). -/
def EG_VALUE : List Int := [94, 281, 297, 512, 936, 0]

def MG_PAWN_TABLE : List Int := [
      0,   0,   0,   0,   0,   0,   0,   0,
     98, 134,  61,  95,  68, 126,  34, -11,
     -6,   7,  26,  31,  65,  56,  25, -20,
    -14,  13,   6,  21,  23,  12,  17, -23,
    -27,  -2,  -5,  12,  17,   6,  10, -25,
    -26,  -4,  -4, -10,   3,   3,  33, -12,
    -35,  -1, -20, -23, -15,  24,  38, -22,
      0,   0,   0,   0,   0,   0,   0,   0]

def EG_PAWN_TABLE : List Int := [
      0,   0,   0,   0,   0,   0,   0,   0,
    178, 173, 158, 134, 147, 132, 165, 187,
     94, 100,  85,  67,  56,  53,  82,  84,
     32,  24,  13,   5,  -2,   4,  17,  17,
     13,   9,  -3,  -7,  -7,  -8,   3,  -1,
      4,   7,  -6,   1,   0,  -5,  -1,  -8,
     13,   8,   8,  10,  13,   0,   2,  -7,
      0,   0,   0,   0,   0,   0,   0,   0]

def MG_KNIGHT_TABLE : List Int := [
    -167, -89, -34, -49,  61, -97, -15, -107,
     -73, -41,  72,  36,  23,  62,   7,  -17,
     -47,  60,  37,  65,  84, 129,  73,   44,
      -9,  17,  19,  53,  37,  69,  18,   22,
     -13,   4,  16,  13,  28,  19,  21,   -8,
     -23,  -9,  12,  10,  19,  17,  25,  -16,
     -29, -53, -12,  -3,  -1,  18, -14,  -19,
    -105, -21, -58, -33, -17, -28, -19,  -23]

def EG_KNIGHT_TABLE : List Int := [
    -58, -38, -13, -28, -31, -27, -63, -99,
    -25,  -8, -25,  -2,  -9, -25, -24, -52,
    -24, -20,  10,   9,  -1,  -9, -19, -41,
    -17,   3,  22,  22,  22,  11,   8, -18,
    -18,  -6,  16,  25,  16,  17,   4, -18,
    -23,  -3,  -1,  15,  10,  -3, -20, -22,
    -42, -20, -10,  -5,  -2, -20, -23, -44,
    -29, -51, -23, -15, -22, -18, -50, -64]

def MG_BISHOP_TABLE : List Int := [
    -29,   4, -82, -37, -25, -42,   7,  -8,
    -26,  16, -18, -13,  30,  59,  18, -47,
    -16,  37,  43,  40,  35,  50,  37,  -2,
     -4,   5,  19,  50,  37,  37,   7,  -2,
     -6,  13,  13,  26,  34,  12,  10,   4,
      0,  15,  15,  15,  14,  27,  18,  10,
      4,  15,  16,   0,   7,  21,  33,   1,
    -33,  -3, -14, -21, -13, -12, -39, -21]

def EG_BISHOP_TABLE : List Int := [
    -14, -21, -11,  -8,  -7,  -9, -17, -24,
     -8,  -4,   7, -12,  -3, -13,  -4, -14,
      2,  -8,   0,  -1,  -2,   6,   0,   4,
     -3,   9,  12,   9,  14,  10,   3,   2,
     -6,   3,  13,  19,   7,  10,  -3,  -9,
    -12,  -3,   8,  10,  13,   3,  -7, -15,
    -14, -18,  -7,  -1,   4,  -9, -15, -27,
    -23,  -9, -23,  -5,  -9, -16,  -5, -17]

def MG_ROOK_TABLE : List Int := [
     32,  42,  32,  51,  63,   9,  31,  43,
     27,  32,  58,  62,  80,  67,  26,  44,
     -5,  19,  26,  36,  17,  45,  61,  16,
    -24, -11,   7,  26,  24,  35,  -8, -20,
    -36, -26, -12,  -1,   9,  -7,   6, -23,
    -45, -25, -16, -17,   3,   0,  -5, -33,
    -44, -16, -20,  -9,  -1,  11,  -6, -71,
    -19, -13,   1,  17,  16,   7, -37, -26]

def EG_ROOK_TABLE : List Int := [
     13,  10,  18,  15,  12,  12,   8,   5,
     11,  13,  13,  11,  -3,   3,   8,   3,
      7,   7,   7,   5,   4,  -3,  -5,  -3,
      4,   3,  13,   1,   2,   1,  -1,   2,
      3,   5,   8,   4,  -5,  -6,  -8, -11,
     -4,   0,  -5,  -1,  -7, -12,  -8, -16,
     -6,  -6,   0,   2,  -9,  -9, -11,  -3,
     -9,   2,   3,  -1,  -5, -13,   4, -20]

def MG_QUEEN_TABLE : List Int := [
    -28,   0,  29,  12,  59,  44,  43,  45,
    -24, -39,  -5,   1, -16,  57,  28,  54,
    -13, -17,   7,   8,  29,  56,  47,  57,
    -27, -27, -16, -16,  -1,  17,  -2,   1,
     -9, -26,  -9, -10,  -2,  -4,   3,  -3,
    -14,   2, -11,  -2,  -5,   2,  14,   5,
    -35,  -8,  11,   2,   8,  15,  -3,   1,
     -1, -18,  -9,  10, -15, -25, -31, -50]

def EG_QUEEN_TABLE : List Int := [
     -9,  22,  22,  27,  27,  19,  10,  20,
    -17,  20,  32,  41,  58,  25,  30,   0,
    -20,   6,   9,  49,  47,  35,  19,   9,
      3,  22,  24,  45,  57,  40,  57,  36,
    -18,  28,  19,  47,  31,  34,  39,  23,
    -16, -27,  15,   6,   9,  17,  10,   5,
    -22, -23, -30, -16, -16, -23, -36, -32,
    -33, -28, -22, -43,  -5, -32, -20, -41]

def MG_KING_TABLE : List Int := [
    -65,  23,  16, -15, -56, -34,   2,  13,
     29,  -1, -20,  -7,  -8,  -4, -38, -29,
     -9,  24,   2, -16, -20,   6,  22, -22,
    -17, -20, -12, -27, -30, -25, -14, -36,
    -49,  -1, -27, -39, -46, -44, -33, -51,
    -14, -14, -22, -46, -44, -30, -15, -27,
      1,   7,  -8, -64, -43, -16,   9,   8,
    -15,  36,  12, -54,   8, -28,  24,  14]

def EG_KING_TABLE : List Int := [
    -74, -35, -18, -18, -11,  15,   4, -17,
    -12,  17,  14,  17,  17,  38,  23,  11,
     10,  17,  23,  15,  20,  45,  44,  13,
     -8,  22,  24,  27,  26,  33,  26,   3,
    -18,  -4,  21,  24,  27,  23,   9, -11,
    -19,  -3,  11,  21,  23,  16,   7,  -9,
    -27, -11,   4,  13,  14,   4,  -5, -17,
    -53, -34, -21, -11, -28, -14, -24, -43]

/-- `mirror` from eval.cpp line 153: `idx ^ 56`, the rank mirror of a
square index. -/
def mirror (idx : Nat) : Nat := idx ^^^ 56

/-- `MG_PST` (eval.cpp lines 155-162). -/
def MG_PST (pt : Nat) : List Int :=
  [MG_PAWN_TABLE, MG_KNIGHT_TABLE, MG_BISHOP_TABLE,
   MG_ROOK_TABLE, MG_QUEEN_TABLE, MG_KING_TABLE].getD pt []

/-- `EG_PST` (eval.cpp lines 164-171). -/
def EG_PST (pt : Nat) : List Int :=
  [EG_PAWN_TABLE, EG_KNIGHT_TABLE, EG_BISHOP_TABLE,
   EG_ROOK_TABLE, EG_QUEEN_TABLE, EG_KING_TABLE].getD pt []

/-- The phase index p ∈ [0, 24] (eval.cpp lines 189-199): weights
knight 1, bishop 1, rook 2, queen 4, both colours, clamped at 24. -/
def phaseOf (b : EvalBoard) : Int :=
  let p := 1 * (popc (b.pieces 1 .white) + popc (b.pieces 1 .black))
         + 1 * (popc (b.pieces 2 .white) + popc (b.pieces 2 .black))
         + 2 * (popc (b.pieces 3 .white) + popc (b.pieces 3 .black))
         + 4 * (popc (b.pieces 4 .white) + popc (b.pieces 4 .black))
  if (p : Int) > 24 then 24 else (p : Int)

/-- One square's material + PST contribution to the midgame bucket
(eval.cpp lines 202-212). -/
def pstTermMg (b : EvalBoard) (sq : Nat) : Int :=
  match b.atSq sq with
  | none => 0
  | some pc =>
    let sign : Int := if pc.2 = .white then 1 else -1
    let idx := if pc.2 = .white then sq else mirror sq
    sign * (MG_VALUE.getD pc.1 0 + (MG_PST pc.1).getD idx 0)

/-- One square's material + PST contribution to the endgame bucket. -/
def pstTermEg (b : EvalBoard) (sq : Nat) : Int :=
  match b.atSq sq with
  | none => 0
  | some pc =>
    let sign : Int := if pc.2 = .white then 1 else -1
    let idx := if pc.2 = .white then sq else mirror sq
    sign * (EG_VALUE.getD pc.1 0 + (EG_PST pc.1).getD idx 0)

def pstMg (b : EvalBoard) : Int := ((List.range 64).map (pstTermMg b)).sum

def pstEg (b : EvalBoard) : Int := ((List.range 64).map (pstTermEg b)).sum

/-- Bishop pair (eval.cpp lines 215-216), midgame ±30. -/
def bishopPairMg (b : EvalBoard) : Int :=
  (if popc b.wb ≥ 2 then 30 else 0) - (if popc b.bbi ≥ 2 then 30 else 0)

/-- Bishop pair, endgame ±35. -/
def bishopPairEg (b : EvalBoard) : Int :=
  (if popc b.wb ≥ 2 then 35 else 0) - (if popc b.bbi ≥ 2 then 35 else 0)

/-- Doubled-pawn count (eval.cpp lines 224-229). -/
def doubledCount (pawns : Nat) : Nat :=
  ((List.range 8).map (fun f =>
    let pf := popc (pawns &&& fileMask f)
    if pf > 1 then pf - 1 else 0)).sum

/-- Isolated-pawn count (eval.cpp lines 231-234). -/
def isolatedCount (pawns : Nat) : Nat :=
  ((List.range 8).map (fun f =>
    let pf := pawns &&& fileMask f
    let adj := (if f > 0 then fileMask (f - 1) else 0) |||
               (if f < 7 then fileMask (f + 1) else 0)
    if pf ≠ 0 ∧ pawns &&& adj = 0 then popc pf else 0)).sum

/-- Doubled/isolated pawn term, midgame (eval.cpp lines 236-237). -/
def pawnStructMg (b : EvalBoard) : Int :=
  -10 * (doubledCount b.wp : Int) + 10 * (doubledCount b.bp : Int)
  + (-8) * (isolatedCount b.wp : Int) + 8 * (isolatedCount b.bp : Int)

/-- Doubled/isolated pawn term, endgame (eval.cpp lines 238-239). -/
def pawnStructEg (b : EvalBoard) : Int :=
  -8 * (doubledCount b.wp : Int) + 8 * (doubledCount b.bp : Int)
  + (-6) * (isolatedCount b.wp : Int) + 6 * (isolatedCount b.bp : Int)

def PASS_MG : List Int := [0, 5, 10, 20, 35, 60, 100, 0]

def PASS_EG : List Int := [0, 10, 20, 40, 60, 100, 160, 0]

/-- `passed_span_white` (eval.cpp lines 245-251): `(~0ULL) << (sq+8)`
restricted to the file and its neighbours (the 64-bit mask makes the
shift total; the C++ shift is defined for the squares pawns occupy). -/
def passedSpanWhite (sq f : Nat) : Nat :=
  let ahead := (M64 <<< (sq + 8)) &&& M64
  let mask := fileMask f ||| (if f > 0 then fileMask (f - 1) else 0) |||
              (if f < 7 then fileMask (f + 1) else 0)
  ahead &&& mask

/-- `passed_span_black` (eval.cpp lines 252-258): `(1ULL << sq) - 1`
restricted to the file and its neighbours. -/
def passedSpanBlack (sq f : Nat) : Nat :=
  let ahead := (1 <<< sq) - 1
  let mask := fileMask f ||| (if f > 0 then fileMask (f - 1) else 0) |||
              (if f < 7 then fileMask (f + 1) else 0)
  ahead &&& mask

/-- Passed-pawn term, midgame (eval.cpp lines 260-281). -/
def passedMg (b : EvalBoard) : Int :=
  ((bits b.wp).map (fun sq =>
    if b.bp &&& passedSpanWhite sq (sq % 8) = 0 then PASS_MG.getD (sq / 8) 0
    else 0)).sum
  - ((bits b.bp).map (fun sq =>
    if b.wp &&& passedSpanBlack sq (sq % 8) = 0 then PASS_MG.getD (7 - sq / 8) 0
    else 0)).sum

/-- Passed-pawn term, endgame. -/
def passedEg (b : EvalBoard) : Int :=
  ((bits b.wp).map (fun sq =>
    if b.bp &&& passedSpanWhite sq (sq % 8) = 0 then PASS_EG.getD (sq / 8) 0
    else 0)).sum
  - ((bits b.bp).map (fun sq =>
    if b.wp &&& passedSpanBlack sq (sq % 8) = 0 then PASS_EG.getD (7 - sq / 8) 0
    else 0)).sum

/-- Number of knights on the board rim (eval.cpp lines 284-305). -/
def rimCount (kn : Nat) : Nat :=
  ((bits kn).map (fun sq =>
    if sq % 8 = 0 ∨ sq % 8 = 7 ∨ sq / 8 = 0 ∨ sq / 8 = 7 then 1 else 0)).sum

/-- Knight-on-rim term, midgame ∓15. -/
def knightRimMg (b : EvalBoard) : Int :=
  -15 * (rimCount b.wn : Int) + 15 * (rimCount b.bn : Int)

/-- Knight-on-rim term, endgame ∓10. -/
def knightRimEg (b : EvalBoard) : Int :=
  -10 * (rimCount b.wn : Int) + 10 * (rimCount b.bn : Int)

/-- Rook open/semi-open file bonus for one side's rooks
(eval.cpp lines 307-339): `openB` with no pawn of either colour on the
file, `semiB` with no friendly but some enemy pawn. -/
def rookFileScore (rooks own enemy : Nat) (openB semiB : Int) : Int :=
  ((bits rooks).map (fun sq =>
    let f := sq % 8
    let ownF := own &&& fileMask f ≠ 0
    let enF := enemy &&& fileMask f ≠ 0
    if ¬ownF ∧ ¬enF then openB else if ¬ownF ∧ enF then semiB else 0)).sum

/-- Rook placement term, midgame (open +15, semi-open +10). -/
def rookFileMg (b : EvalBoard) : Int :=
  rookFileScore b.wr b.wp b.bp 15 10 - rookFileScore b.br b.bp b.wp 15 10

/-- Rook placement term, endgame (open +10, semi-open +5). -/
def rookFileEg (b : EvalBoard) : Int :=
  rookFileScore b.wr b.wp b.bp 10 5 - rookFileScore b.br b.bp b.wp 10 5

/-- `connected_rooks` (eval.cpp lines 344-360): the two lowest-index
rooks of a colour attack each other through the current occupancy. -/
def connectedRooks (b : EvalBoard) (c : Color) : Bool :=
  match bits (b.pieces 3 c) with
  | s1 :: s2 :: _ => (rookAtt b.occ s1).testBit s2
  | _ => false

/-- Connected-rooks term (±10 in both buckets). -/
def connectedRooksTerm (b : EvalBoard) : Int :=
  (if connectedRooks b .white then 10 else 0)
  - (if connectedRooks b .black then 10 else 0)

/-- One shield file's penalty increment inside `king_shield`
(eval.cpp lines 372-398): `(15, 5)` for an off-board or unshielded
file, `(8, 3)` for a far shield, `(0, 0)` for a near shield.  The C++
reads the shield squares only after their range checks; the `decide`
conjunctions express the same guarded reads. -/
def shieldFilePen (pawns : Nat) (file rank forward df : Int) : Int × Int :=
  let f := file + df
  if f < 0 ∨ f > 7 then (15, 5)
  else
    let r1 := rank + forward
    let r2 := rank + 2 * forward
    let shield1 :=
      decide (0 ≤ r1 ∧ r1 < 8) && pawns.testBit (r1.toNat * 8 + f.toNat)
    let shield2 :=
      !shield1 && (decide (0 ≤ r2 ∧ r2 < 8) &&
        pawns.testBit (r2.toNat * 8 + f.toNat))
    if shield1 then (0, 0)
    else if shield2 then (8, 3)
    else (15, 5)

/-- `king_shield` (eval.cpp lines 365-400): the (midgame, endgame)
penalty pair for one side's pawn shield, accumulated over the files
`king_file − 1 .. king_file + 1`. -/
def kingShieldPen (b : EvalBoard) (c : Color) : Int × Int :=
  let ksq := b.kingSq c
  let file : Int := (ksq % 8 : Nat)
  let rank : Int := (ksq / 8 : Nat)
  let pawns := b.pieces 0 c
  let forward : Int := if c = .white then 1 else -1
  ([-1, 0, 1] : List Int).foldl (fun acc df =>
    let p := shieldFilePen pawns file rank forward df
    (acc.1 + p.1, acc.2 + p.2)) (0, 0)

/-- King-shield term, midgame (eval.cpp lines 401-404). -/
def kingShieldMg (b : EvalBoard) : Int :=
  -(kingShieldPen b .white).1 + (kingShieldPen b .black).1

/-- King-shield term, endgame. -/
def kingShieldEg (b : EvalBoard) : Int :=
  -(kingShieldPen b .white).2 + (kingShieldPen b .black).2

/-- Mobility count for one colour (eval.cpp lines 406-426): attacked
squares excluding own pieces, for knights, bishops, rooks and queens. -/
def mobilityCount (b : EvalBoard) (c : Color) : Nat :=
  let own := b.us c
  let o := b.occ
  let notOwn := M64 ^^^ own
  ((bits (b.pieces 1 c)).map (fun sq => popc (knightAtt sq &&& notOwn))).sum
  + ((bits (b.pieces 2 c)).map (fun sq => popc (bishopAtt o sq &&& notOwn))).sum
  + ((bits (b.pieces 3 c)).map (fun sq => popc (rookAtt o sq &&& notOwn))).sum
  + ((bits (b.pieces 4 c)).map (fun sq => popc (queenAtt o sq &&& notOwn))).sum

/-- Mobility term, midgame: `4 * (mobW - mobB)` (eval.cpp line 427). -/
def mobilityMg (b : EvalBoard) : Int :=
  4 * ((mobilityCount b .white : Int) - (mobilityCount b .black : Int))

/-- Mobility term, endgame: `2 * (mobW - mobB)` (eval.cpp line 428). -/
def mobilityEg (b : EvalBoard) : Int :=
  2 * ((mobilityCount b .white : Int) - (mobilityCount b .black : Int))

/-- Tempo (eval.cpp line 431). -/
def tempoOf (b : EvalBoard) : Int := if b.stm = .white then 8 else -8

/-- The full midgame bucket `mgScore = mg + tempo` (eval.cpp line 433):
the accumulation of `mg` through the function body, regrouped into the
per-term sums (integer addition commutes and the magnitudes stay far
below `int` overflow). -/
def mgScore (b : EvalBoard) : Int :=
  pstMg b + bishopPairMg b + pawnStructMg b + passedMg b + knightRimMg b
  + rookFileMg b + connectedRooksTerm b + kingShieldMg b + mobilityMg b
  + tempoOf b

/-- The full endgame bucket `egScore = eg + tempo` (eval.cpp line 434). -/
def egScore (b : EvalBoard) : Int :=
  pstEg b + bishopPairEg b + pawnStructEg b + passedEg b + knightRimEg b
  + rookFileEg b + connectedRooksTerm b + kingShieldEg b + mobilityEg b
  + tempoOf b

/-- `eval::evaluate` (eval.cpp lines 177-446).  The evaluation cache
(lines 179-184 and 441-444) only replays previously computed values and
is omitted from the pure model.  The final blend is the C++
`(mgScore * phase + egScore * (24 - phase)) / 24` with truncating
division, negated when black is to move. -/
def evaluate (b : EvalBoard) : Int :=
  let mgS := mgScore b
  let egS := egScore b
  let phase := phaseOf b
  let score := Int.tdiv (mgS * phase + egS * (24 - phase)) 24
  if b.stm = .white then score else -score

/-- The three-phase tapered blend asserted by the claim, following the
spec's words (§4.1): `op_w = p²`, `mg_w = 2·p·(24−p)`, `eg_w = (24−p)²`,
`score = (op·op_w + mg·mg_w + eg·eg_w) / (op_w + mg_w + eg_w)`. -/
def threePhaseBlend (op mg eg p : Int) : Int :=
  Int.tdiv (op * (p * p) + mg * (2 * p * (24 - p)) + eg * ((24 - p) * (24 - p)))
    (p * p + 2 * p * (24 - p) + (24 - p) * (24 - p))

/-- Rank-mirror of a 64-bit bitboard: bit `n` of the result is bit
`n ^^^ 56` of the input (rank `r` moves to rank `7 − r`, files stay). -/
def mirrorBB (x : Nat) : Nat :=
  (List.range 64).foldl
    (fun acc n => if x.testBit (n ^^^ 56) then acc ||| (1 <<< n) else acc) 0

/-- The opposite colour. -/
def swapColor : Color → Color
  | .white => .black
  | .black => .white

/-- The colour-swapped, rank-mirrored position, side to move unchanged
(one reading of the claim's `mirror`). -/
def mirrorKeep (b : EvalBoard) : EvalBoard :=
  { wp := mirrorBB b.bp, wn := mirrorBB b.bn, wb := mirrorBB b.bbi,
    wr := mirrorBB b.br, wq := mirrorBB b.bq, wk := mirrorBB b.bk,
    bp := mirrorBB b.wp, bn := mirrorBB b.wn, bbi := mirrorBB b.wb,
    br := mirrorBB b.wr, bq := mirrorBB b.wq, bk := mirrorBB b.wk,
    stm := b.stm }

/-- The colour-swapped, rank-mirrored position with the side to move
flipped as well (the other reading of the claim's `mirror`). -/
def mirrorFlip (b : EvalBoard) : EvalBoard :=
  { mirrorKeep b with stm := if b.stm = .white then .black else .white }

/-- The standard starting position. -/
def startBoard : EvalBoard :=
  { wp := 0xFF00, wn := 0x42, wb := 0x24, wr := 0x81, wq := 0x8, wk := 0x10,
    bp := 0xFF000000000000, bn := 0x4200000000000000,
    bbi := 0x2400000000000000, br := 0x8100000000000000,
    bq := 0x800000000000000, bk := 0x1000000000000000, stm := .white }

/-- White king g1, white rook a1, black king g8, white to move:
a sparse position with phase index 2. -/
def krkBoard : EvalBoard :=
  { wp := 0, wn := 0, wb := 0, wr := 0x1, wq := 0, wk := 0x40,
    bp := 0, bn := 0, bbi := 0, br := 0, bq := 0,
    bk := 0x4000000000000000, stm := .white }

/-- White king g1, white queen d1, black king g8, white to move:
a sparse position with phase index 4. -/
def kqkBoard : EvalBoard :=
  { wp := 0, wn := 0, wb := 0, wr := 0, wq := 0x8, wk := 0x40,
    bp := 0, bn := 0, bbi := 0, br := 0, bq := 0,
    bk := 0x4000000000000000, stm := .white }

end Minerva

/-- C4: for every integer score `s` and every ply `p ≥ 0`,
`from_tt (to_tt s p) p = s`; this covers both mate scores
(`|s| > MATE − MATE_IN_MAX`) and non-mate scores. -/
theorem C4_tt_score_roundtrip (s p : Int) (hp : 0 ≤ p) :
    Minerva.from_tt (Minerva.to_tt s p) p = s := by
  unfold Minerva.to_tt Minerva.from_tt Minerva.MATE Minerva.MATE_IN_MAX
  split_ifs <;> omega

/-- Witness for C4 at the mate score 31999 and ply 3. -/
theorem C4_tt_score_roundtrip_witness :
    (0 : Int) ≤ 3 ∧ Minerva.from_tt (Minerva.to_tt 31999 3) 3 = 31999 :=
  ⟨by decide, C4_tt_score_roundtrip 31999 3 (by decide)⟩

/-- C3: `probe key` returns the indexed slot iff that slot's stored key
equals `key` (a same-slot key mismatch is a miss); `store` overwrites the
slot iff the slot holds a different key or the incoming depth is at least
the slot's existing depth; and on a freshly resized table, after
`store k m1 3 _ _` then `store k m2 2 _ _`, `probe k` returns the depth-3
entry carrying move `m1`. -/
theorem C3_tt_probe_store (t : Minerva.TranspositionTable) (k m : Nat)
    (d s : Int) (f mb k2 m1 m2 : Nat) (s1 s2 : Int) (f1 f2 : Nat) :
    (∀ e, t.probe k = some e ↔
        ((t.table (t.index k)).key = k ∧ e = t.table (t.index k)))
    ∧ (((t.table (t.index k)).key ≠ k ∨ d ≥ (t.table (t.index k)).depth) →
        (t.store k m d s f).table (t.index k) =
          { key := k, move := m,
            score := max (-Minerva.MATE) (min Minerva.MATE s),
            depth := Minerva.i8cast (min d 127), flag := f, gen := t.gen })
    ∧ (¬((t.table (t.index k)).key ≠ k ∨ d ≥ (t.table (t.index k)).depth) →
        t.store k m d s f = t)
    ∧ ((((Minerva.TranspositionTable.resize mb).store k2 m1 3 s1 f1).store
          k2 m2 2 s2 f2).probe k2 =
        some { key := k2, move := m1,
               score := max (-Minerva.MATE) (min Minerva.MATE s1),
               depth := 3, flag := f1, gen := 0 }) := by
  refine ⟨?_, ?_, ?_, ?_⟩
  · intro e
    unfold Minerva.TranspositionTable.probe
    by_cases h : (t.table (t.index k)).key = k
    · simp [h, eq_comm]
    · simp [h]
  · intro h
    unfold Minerva.TranspositionTable.store
    simp only [h, if_pos, if_true]
  · intro h
    unfold Minerva.TranspositionTable.store
    rw [if_neg h]
  · unfold Minerva.TranspositionTable.store Minerva.TranspositionTable.probe
      Minerva.TranspositionTable.resize Minerva.TranspositionTable.index
    simp [Minerva.TTEntry.empty, Minerva.i8cast]
    norm_num [Minerva.i8cast]

/-- Witness for C3: on a fresh 1 MB table the replacement condition holds
at key 5 (empty slot has depth −1), and the store writes the entry. -/
theorem C3_tt_probe_store_witness :
    (((Minerva.TranspositionTable.resize 1).table
        ((Minerva.TranspositionTable.resize 1).index 5)).key ≠ 5 ∨
      (2 : Int) ≥ ((Minerva.TranspositionTable.resize 1).table
        ((Minerva.TranspositionTable.resize 1).index 5)).depth)
    ∧ ((Minerva.TranspositionTable.resize 1).store 5 7 2 10 1).table
        ((Minerva.TranspositionTable.resize 1).index 5) =
      { key := 5, move := 7, score := 10, depth := 2, flag := 1, gen := 0 } := by
  have h := (C3_tt_probe_store (Minerva.TranspositionTable.resize 1) 5 7 2 10 1
    0 0 0 0 0 0 0 0).2.1
  refine ⟨Or.inr (by norm_num [Minerva.TranspositionTable.resize,
    Minerva.TranspositionTable.index, Minerva.TTEntry.empty]), ?_⟩
  have h2 := h (Or.inr (by norm_num [Minerva.TranspositionTable.resize,
    Minerva.TranspositionTable.index, Minerva.TTEntry.empty]))
  simpa [Minerva.MATE, Minerva.i8cast] using h2

/-- C7 counterexample: `resize 3` produces an entry count of
196608 = 3·65536, which is not a power of two (the largest power-of-two
count fitting in 3 MB would be 2^17 = 131072). -/
theorem C7_resize_counterexample :
    (Minerva.TranspositionTable.resize 3).size = 196608
    ∧ (∀ k : Nat, 2 ^ k ≠ 196608) := by
  constructor
  · norm_num [Minerva.TranspositionTable.resize, Minerva.ttEntrySize]
  · intro k h
    have h3 : (3 : Nat) ∣ 2 ^ k := by
      rw [h]; exact ⟨65536, by norm_num⟩
    have := Nat.Prime.dvd_of_dvd_pow Nat.prime_three h3
    norm_num at this

/-- C7 amended: `resize mb` sets the entry count to
`max 1 (mb·2²⁰/16) = max 1 (mb·65536)` (a power of two only when `mb` is
zero or a power of two), sets `mask = count − 1`, and indexing by
`hash &&& mask` lands strictly below the entry count for every hash. -/
theorem C7_resize_amended (mb : Nat) :
    (Minerva.TranspositionTable.resize mb).size = max 1 (mb * 65536)
    ∧ (Minerva.TranspositionTable.resize mb).mask =
        (Minerva.TranspositionTable.resize mb).size - 1
    ∧ ∀ hash : Nat, (Minerva.TranspositionTable.resize mb).index hash <
        (Minerva.TranspositionTable.resize mb).size := by
  refine ⟨?_, rfl, ?_⟩
  · show max 1 (mb * 1024 * 1024 / Minerva.ttEntrySize) = max 1 (mb * 65536)
    have hq : mb * 1024 * 1024 / Minerva.ttEntrySize = mb * 65536 := by
      unfold Minerva.ttEntrySize
      omega
    rw [hq]
  · intro hash
    show hash &&& ((Minerva.TranspositionTable.resize mb).size - 1) <
      (Minerva.TranspositionTable.resize mb).size
    have h1 : 1 ≤ (Minerva.TranspositionTable.resize mb).size :=
      le_max_left 1 _
    have h2 := Nat.and_le_right (n := hash)
      (m := (Minerva.TranspositionTable.resize mb).size - 1)
    omega

/-- C9: when a `go` command specifies none of `infinite`, `movetime`,
`depth` but gives the side-to-move clock `my_time ≥ 0`, the search time
budget is `clamp(my_time/mtg + my_inc/2, 20, max(50, my_time − 10))`
with `mtg = movestogo` if positive, else 30 (C++ truncating division). -/
theorem C9_time_budget (stm : Bool) (g : Minerva.GoParams)
    (hInf : g.infinite = false) (hMt : g.movetime ≤ 0) (hD : g.depth ≤ 0)
    (hT : (if stm then g.wtime else g.btime) ≥ 0) :
    Minerva.parseLimits stm g =
      { timeMs := Minerva.cppClamp
          (Int.tdiv (if stm then g.wtime else g.btime)
              (if g.movestogo > 0 then g.movestogo else 30) +
            Int.tdiv (if stm then g.winc else g.binc) 2)
          20 (max 50 ((if stm then g.wtime else g.btime) - 10)),
        depth := 0, infinite := false } := by
  unfold Minerva.parseLimits
  rw [hInf, if_neg (by omega : ¬g.movetime > 0), if_neg (by omega : ¬g.depth > 0)]
  simp only [if_pos hT]
  have hmtg : max 1 (if g.movestogo > 0 then g.movestogo else 30) =
      (if g.movestogo > 0 then g.movestogo else 30) := by
    split <;> omega
  rw [hmtg]
  simp

/-- Witness for C9: `go wtime 60000 winc 1000` with white to move yields
a budget of 60000/30 + 1000/2 = 2500 ms. -/
theorem C9_time_budget_witness :
    ({ wtime := 60000, winc := 1000 } : Minerva.GoParams).infinite = false
    ∧ ({ wtime := 60000, winc := 1000 } : Minerva.GoParams).movetime ≤ 0
    ∧ ({ wtime := 60000, winc := 1000 } : Minerva.GoParams).depth ≤ 0
    ∧ Minerva.parseLimits true { wtime := 60000, winc := 1000 } =
        { timeMs := 2500, depth := 0, infinite := false } := by
  refine ⟨rfl, by decide, by decide, ?_⟩
  have h := C9_time_budget true { wtime := 60000, winc := 1000 }
    rfl (by decide) (by decide) (by decide)
  rw [h]
  decide

/-- C2: for every move of negamax's move loop, the recursive call is made
with sub-depth `depth − 2` when `depth − 1 > 0`, at least four moves were
already searched, and the move is a non-capture non-promotion; otherwise
with sub-depth `depth − 1`.  (`lmrSubDepth` is the sub-depth computation
used by the embedded `negamax` for every recursive call.) -/
theorem C2_lmr_subdepth (depth : Int) (ms : Nat) (cap promo : Bool) :
    ((depth - 1 > 0 ∧ ms ≥ 4 ∧ cap = false ∧ promo = false) →
      Minerva.lmrSubDepth depth ms cap promo = depth - 2)
    ∧ (¬(depth - 1 > 0 ∧ ms ≥ 4 ∧ cap = false ∧ promo = false) →
      Minerva.lmrSubDepth depth ms cap promo = depth - 1) := by
  unfold Minerva.lmrSubDepth
  constructor <;> intro h
  · rw [if_pos h]; ring
  · rw [if_neg h]

/-- Witness for C2: at depth 5, fifth move (`ms = 4`), quiet move, the
sub-depth is reduced to 3 = 5 − 2. -/
theorem C2_lmr_subdepth_witness :
    ((5 : Int) - 1 > 0 ∧ (4 : Nat) ≥ 4 ∧ false = false ∧ false = false)
    ∧ Minerva.lmrSubDepth 5 4 false false = 3 := by
  refine ⟨by decide, ?_⟩
  have h := (C2_lmr_subdepth 5 4 false false).1 (by decide)
  rw [h]
  decide

/-- Helper: a left fold whose step never decreases the first component
never decreases it overall. -/
theorem foldl_fst_ge {α γ : Type _} (f : Int × γ → α → Int × γ)
    (hf : ∀ acc m, acc.1 ≤ (f acc m).1) :
    ∀ (l : List α) (init : Int × γ), init.1 ≤ (l.foldl f init).1 := by
  intro l
  induction l with
  | nil => intro init; exact le_refl _
  | cons m ms ih => intro init; exact le_trans (hf init m) (ih (f init m))

/-- Helper for C8: the quiescence node body (past the time-out check)
satisfies the stand-pat contract at every not-in-check node, whatever
the recursive calls return. -/
theorem qnode_standpat {B M : Type} (R : Minerva.Rules B M)
    (eval : B → Int)
    (qs : Minerva.SState M → B → Int → Int → Nat → Int × Minerva.SState M)
    (st2 : Minerva.SState M) (b : B) (alpha beta : Int) (ply : Nat)
    (h : R.inCheck b = false) :
    (eval b ≥ beta → (Minerva.qnode R eval qs st2 b alpha beta ply).1 = eval b)
    ∧ eval b ≤ (Minerva.qnode R eval qs st2 b alpha beta ply).1 := by
  unfold Minerva.qnode
  simp only [h, Bool.false_eq_true, if_false]
  by_cases hb : eval b ≥ beta
  · rw [if_pos hb]
    exact ⟨fun _ => rfl, le_refl _⟩
  · rw [if_neg hb]
    refine ⟨fun hb2 => absurd hb2 hb, ?_⟩
    by_cases hcaps : (List.filter (fun m => R.isCapture m || R.isPromotion m)
        (R.legalMoves b)).isEmpty = true
    · rw [if_pos hcaps]
    · rw [if_neg hcaps]
      exact foldl_fst_ge _
        (by
          intro acc m
          by_cases hd : acc.2.2.1 = true
          · rw [if_pos hd]
          · rw [if_neg hd]
            exact le_sup_left)
        _ _

/-- C8: whenever the side to move is not in check, `qsearch` computes the
stand-pat score `eval b`, returns it at once when it already meets β, and
otherwise returns a value no smaller than it. -/
theorem C8_qsearch_standpat {B M : Type} (R : Minerva.Rules B M)
    (eval : B → Int) (fuel : Nat) (st : Minerva.SState M) (b : B)
    (alpha beta : Int) (ply : Nat) (h : R.inCheck b = false) :
    (eval b ≥ beta → (Minerva.qsearch R eval fuel st b alpha beta ply).1 = eval b)
    ∧ eval b ≤ (Minerva.qsearch R eval fuel st b alpha beta ply).1 := by
  cases fuel with
  | zero => exact ⟨fun _ => rfl, le_refl _⟩
  | succ n =>
    simp only [Minerva.qsearch]
    by_cases h0 : (st.nodes &&& 1023 == 0) = true
    · rw [if_pos h0]
      by_cases h3 : (Minerva.timeUpQ { st with nodes := st.nodes + 1 }).1 = true
      · rw [if_pos h3]
        exact ⟨fun _ => rfl, le_refl _⟩
      · rw [if_neg h3]
        exact qnode_standpat R eval _ _ b alpha beta ply h
    · rw [if_neg h0]
      exact qnode_standpat R eval _ _ b alpha beta ply h

/-- C10: if the root has at least one legal move and the time oracle
already reports the budget exhausted when `go` starts, `go` returns the
first generated legal root move with `bestScore = −30000 = −INF` (not a
static evaluation of the root). -/
theorem C10_go_timeout_fallback {B M : Type} [DecidableEq M]
    (R : Minerva.Rules B M) (eval : B → Int) (fuel : Nat)
    (st : Minerva.SState M) (root : B) (lim : Minerva.SearchLimits)
    (m0 : M) (ms : List M) (h1 : R.legalMoves root = m0 :: ms)
    (h2 : st.timeline st.tquery = true) :
    (Minerva.go R eval fuel st root lim).1 =
      { best := some m0, bestScore := -30000 } := by
  unfold Minerva.go
  rw [h1]
  dsimp only
  obtain ⟨k, hk⟩ : ∃ k, (if lim.depth > 0 then lim.depth else 64).toNat = k + 1 := by
    split
    · rename_i hd
      refine ⟨lim.depth.toNat - 1, ?_⟩
      omega
    · exact ⟨63, by decide⟩
  rw [hk]
  simp only [Minerva.goLoop, Minerva.timeUpQ, h2, if_pos]
  rfl

/-- Witness for C10: the one-move rules instance with an exhausted clock
returns that move and score −30000. -/
theorem C10_go_timeout_fallback_witness :
    Minerva.unitRules.legalMoves () = [()]
    ∧ Minerva.stoppedState.timeline Minerva.stoppedState.tquery = true
    ∧ (Minerva.go Minerva.unitRules (fun _ => 0) 5 Minerva.stoppedState ()
        { timeMs := 1000, depth := 0, infinite := false }).1 =
      { best := some (), bestScore := -30000 } :=
  ⟨rfl, rfl,
    C10_go_timeout_fallback Minerva.unitRules (fun _ => 0) 5
      Minerva.stoppedState () { timeMs := 1000, depth := 0, infinite := false }
      () [] rfl rfl⟩

/-- C6 counterexample: a pawn-takes-pawn capture (victim 100, attacker
100) is scored 20,011,500 by the code — `20000000 + mvv_lva` where
`mvv_lva` carries its own `10000 +` offset — not the claimed
`20,000,000 + 100·16 − 100 = 20,001,500`. -/
theorem C6_capture_score_counterexample :
    Minerva.scoreOf Minerva.demoRules Minerva.demoBoard Minerva.History.clear
      Minerva.Killers.clear none 0 (5, 12, true) = 20011500
    ∧ (20011500 : Int) ≠ 20000000 + 100 * 16 - 100 := by
  constructor
  · decide
  · decide

/-- C6 amended: the TT move scores 30,000,000; a capture (en-passant
included) scores `20,000,000 + (10,000 + victim·16 − attacker)` (the
MVV-LVA term carries an extra offset of 10,000, with the en-passant
victim on the square behind the target); killers score 15,000,000;
other quiets score `10,000,000 + history[from][to]`; and the ordered
list is sorted descending by these scores. -/
theorem C6_move_order_scores {B M : Type} [DecidableEq M]
    (R : Minerva.Rules B M) (b : B) (hist : Minerva.History)
    (kil : Minerva.Killers M) (ttMove : Option M) (ply : Nat) (ml : List M)
    (m : M) :
    (some m = ttMove → Minerva.scoreOf R b hist kil ttMove ply m = 30000000)
    ∧ (some m ≠ ttMove → R.isCapture m = true →
        Minerva.scoreOf R b hist kil ttMove ply m =
          20000000 + (10000 +
            Minerva.pieceValue (R.pieceTypeAt b
              (if R.isEnPassant m then R.moveTo m ^^^ 8 else R.moveTo m)) * 16 -
            Minerva.pieceValue (R.pieceTypeAt b (R.moveFrom m))))
    ∧ (some m ≠ ttMove → R.isCapture m = false → kil.isKiller ply m = true →
        Minerva.scoreOf R b hist kil ttMove ply m = 15000000)
    ∧ (some m ≠ ttMove → R.isCapture m = false → kil.isKiller ply m = false →
        Minerva.scoreOf R b hist kil ttMove ply m =
          10000000 + hist.table (R.moveFrom m) (R.moveTo m))
    ∧ (Minerva.orderMoves R b hist kil ttMove ply ml).Pairwise
        (fun a c => Minerva.scoreOf R b hist kil ttMove ply c ≤
          Minerva.scoreOf R b hist kil ttMove ply a) := by
  refine ⟨?_, ?_, ?_, ?_, ?_⟩
  · intro h
    unfold Minerva.scoreOf
    rw [if_pos h]
  · intro h hc
    unfold Minerva.scoreOf
    rw [if_neg h, if_pos hc]
    unfold Minerva.mvv_lva
    rw [if_neg (by simp [hc])]
    by_cases he : R.isEnPassant m = true
    · rw [if_pos he, if_pos he]
    · rw [if_neg he, if_neg he]
  · intro h hc hk
    unfold Minerva.scoreOf
    rw [if_neg h, if_neg (by simp [hc]), if_pos hk]
  · intro h hc hk
    unfold Minerva.scoreOf Minerva.History.mscore
    rw [if_neg h, if_neg (by simp [hc]), if_neg (by simp [hk])]
  · unfold Minerva.orderMoves
    have hs := @List.sorted_mergeSort M
      (fun a c => decide (Minerva.scoreOf R b hist kil ttMove ply c ≤
        Minerva.scoreOf R b hist kil ttMove ply a))
      (by
        intro a c d h1 h2
        rw [decide_eq_true_eq] at *
        exact le_trans h2 h1)
      (by
        intro a c
        rcases le_total (Minerva.scoreOf R b hist kil ttMove ply c)
          (Minerva.scoreOf R b hist kil ttMove ply a) with h1 | h1
        · simp [h1]
        · simp [h1])
      ml
    exact hs.imp (fun hx => of_decide_eq_true hx)

/-- Witness for C6 applying the capture clause at the concrete
pawn-takes-pawn move: the capture-score formula evaluates to 20,011,500. -/
theorem C6_move_order_scores_witness :
    (some ((5, 12, true) : Nat × Nat × Bool) ≠ (none : Option (Nat × Nat × Bool)))
    ∧ Minerva.demoRules.isCapture (5, 12, true) = true
    ∧ Minerva.scoreOf Minerva.demoRules Minerva.demoBoard Minerva.History.clear
        Minerva.Killers.clear none 0 (5, 12, true) = 20011500 := by
  refine ⟨by decide, rfl, ?_⟩
  have h := (C6_move_order_scores Minerva.demoRules Minerva.demoBoard
    Minerva.History.clear Minerva.Killers.clear none 0 [] (5, 12, true)).2.1
    (by decide) rfl
  rw [h]
  decide

/-- Witness for C8 at a concrete not-in-check instance with stand-pat 7
and β = 5: qsearch returns the stand-pat score. -/
theorem C8_qsearch_standpat_witness :
    Minerva.unitRules.inCheck () = false
    ∧ ((7 : Int) ≥ 5)
    ∧ (Minerva.qsearch Minerva.unitRules (fun _ => (7 : Int)) 3
        Minerva.stoppedState () 0 5 0).1 = 7 :=
  ⟨rfl, by decide,
    (C8_qsearch_standpat Minerva.unitRules (fun _ => (7 : Int)) 3
      Minerva.stoppedState () 0 5 0 rfl).1 (by decide)⟩

/-- C1 counterexample: on the phase-4 position `kqkBoard` (white Kg1,
Qd1 vs black Kg8, white to move) the code returns 1027, the two-phase
linear taper, while the claimed three-phase quadratic blend gives 1043,
1040 or 1012 depending on which of the code's two buckets (or zero)
stands in for the nonexistent opening bucket `op` — the code computes
no opening bucket at all. -/
theorem C1_blend_counterexample :
    Minerva.evaluate Minerva.kqkBoard = 1027
    ∧ Minerva.threePhaseBlend (Minerva.mgScore Minerva.kqkBoard)
        (Minerva.mgScore Minerva.kqkBoard) (Minerva.egScore Minerva.kqkBoard)
        (Minerva.phaseOf Minerva.kqkBoard) = 1043
    ∧ Minerva.threePhaseBlend (Minerva.egScore Minerva.kqkBoard)
        (Minerva.mgScore Minerva.kqkBoard) (Minerva.egScore Minerva.kqkBoard)
        (Minerva.phaseOf Minerva.kqkBoard) = 1040
    ∧ Minerva.threePhaseBlend 0 (Minerva.mgScore Minerva.kqkBoard)
        (Minerva.egScore Minerva.kqkBoard) (Minerva.phaseOf Minerva.kqkBoard)
        = 1012
    ∧ (1027 : Int) ≠ 1043 ∧ (1027 : Int) ≠ 1040 ∧ (1027 : Int) ≠ 1012 := by
  refine ⟨by decide, by decide, by decide, by decide, by decide, by decide,
    by decide⟩

/-- C1 amended: `evaluate` computes two phase buckets `mgScore` and
`egScore` (each including the tempo term) and returns the two-phase
linear taper `(mg·p + eg·(24−p)) / 24` with truncating division, as-is
when white is to move and negated when black is to move. -/
theorem C1_two_phase_taper (b : Minerva.EvalBoard) :
    Minerva.evaluate b =
      (if b.stm = Minerva.Color.white then 1 else -1) *
        Int.tdiv (Minerva.mgScore b * Minerva.phaseOf b +
          Minerva.egScore b * (24 - Minerva.phaseOf b)) 24 := by
  unfold Minerva.evaluate
  by_cases h : b.stm = Minerva.Color.white
  · rw [if_pos h, if_pos h]
    ring
  · rw [if_neg h, if_neg h]
    ring

/-- C5 counterexample: at the starting position the evaluation is 8 and
the evaluation of the mirrored position is also 8 — under either reading
of `mirror` (side to move kept or flipped) — so
`evaluate(pos) = −evaluate(mirror(pos))` fails: 8 ≠ −8.  (The +8 tempo
bonus always goes to the side to move, so the side-to-move-relative
score cannot be antisymmetric under mirroring.) -/
theorem C5_mirror_counterexample :
    Minerva.evaluate Minerva.startBoard = 8
    ∧ Minerva.evaluate (Minerva.mirrorKeep Minerva.startBoard) = 8
    ∧ Minerva.evaluate (Minerva.mirrorFlip Minerva.startBoard) = 8
    ∧ (8 : Int) ≠ -8 := by
  refine ⟨by decide, by decide, by decide, by decide⟩

/-! Helper lemmas for the mirror-symmetry analysis (C5). -/

/-- Bit `n` of the bitboard built by a `mirrorBB`-style fold over
`range N` is set iff `n < N` and the source predicate holds at `n`. -/
theorem testBit_bitfold (p : Nat → Bool) (N n : Nat) :
    ((List.range N).foldl
        (fun acc i => if p i then acc ||| (1 <<< i) else acc) 0).testBit n
      = (decide (n < N) && p n) := by
  induction N with
  | zero => simp
  | succ k ih =>
    rw [List.range_succ, List.foldl_append, List.foldl_cons, List.foldl_nil]
    by_cases hp : p k = true
    · rw [if_pos hp, Nat.testBit_or, ih,
        show (1 : Nat) <<< k = 2 ^ k from by rw [Nat.shiftLeft_eq, one_mul],
        Nat.testBit_two_pow]
      by_cases h1 : n = k
      · subst h1
        simp [hp]
      · rw [show decide (k = n) = false from by
            simp only [decide_eq_false_iff_not]; exact fun hh => h1 hh.symm,
          show decide (n < k) = decide (n < k + 1) from by
            simp only [decide_eq_decide]; omega]
        simp
    · rw [if_neg hp, ih]
      by_cases h1 : n = k
      · subst h1
        have hp2 : p n = false := by
          revert hp
          cases p n <;> simp
        simp [hp2]
      · rw [show decide (n < k) = decide (n < k + 1) from by
          simp only [decide_eq_decide]; omega]

/-- Bit `n` of `mirrorBB x` is bit `n ^^^ 56` of `x`, for `n < 64`;
bits 64 and above are clear. -/
theorem testBit_mirrorBB (x n : Nat) :
    (Minerva.mirrorBB x).testBit n = (decide (n < 64) && x.testBit (n ^^^ 56)) :=
  testBit_bitfold (fun i => x.testBit (i ^^^ 56)) 64 n

/-- `mirrorBB` at an index below 64. -/
theorem testBit_mirrorBB_lt (x : Nat) {n : Nat} (hn : n < 64) :
    (Minerva.mirrorBB x).testBit n = x.testBit (n ^^^ 56) := by
  rw [testBit_mirrorBB, decide_eq_true hn, Bool.true_and]

/-- The XOR-56 rank mirror is an involution. -/
theorem xor56_xor56 (n : Nat) : n ^^^ 56 ^^^ 56 = n := Nat.xor_cancel_right 56 n

/-- XOR-56 keeps indices below 64. -/
theorem xor56_lt {n : Nat} (hn : n < 64) : n ^^^ 56 < 64 := by
  have h : ∀ m : Fin 64, (m : Nat) ^^^ 56 < 64 := by decide
  exact h ⟨n, hn⟩

/-- Folding set-bits at indices below 64 into an accumulator below
`2^64` stays below `2^64`. -/
theorem bitfold_lt (p : Nat → Bool) :
    ∀ (l : List Nat), (∀ i ∈ l, i < 64) → ∀ acc, acc < 2 ^ 64 →
      l.foldl (fun acc i => if p i then acc ||| (1 <<< i) else acc) acc < 2 ^ 64 := by
  intro l
  induction l with
  | nil => intro _ acc hacc; exact hacc
  | cons a l ih =>
    intro hmem acc hacc
    rw [List.foldl_cons]
    refine ih (fun i hi => hmem i (List.mem_cons_of_mem a hi)) _ ?_
    by_cases hp : p a = true
    · rw [if_pos hp]
      refine Nat.or_lt_two_pow hacc ?_
      rw [Nat.shiftLeft_eq, one_mul]
      exact Nat.pow_lt_pow_right (by norm_num) (hmem a (List.mem_cons_self a l))
    · rw [if_neg hp]
      exact hacc

/-- `mirrorBB` never sets bits at or above 64. -/
theorem mirrorBB_lt (x : Nat) : Minerva.mirrorBB x < 2 ^ 64 :=
  bitfold_lt _ (List.range 64) (fun i hi => List.mem_range.mp hi) 0 (by norm_num)

/-- `mirrorBB` distributes over bitwise or. -/
theorem mirrorBB_or (x y : Nat) :
    Minerva.mirrorBB (x ||| y) = Minerva.mirrorBB x ||| Minerva.mirrorBB y := by
  apply Nat.eq_of_testBit_eq
  intro i
  rw [Nat.testBit_or, testBit_mirrorBB, testBit_mirrorBB, testBit_mirrorBB,
    Nat.testBit_or]
  rw [Bool.and_or_distrib_left]

/-- `mirrorBB` commutes with complementation against the 64-bit mask. -/
theorem mirrorBB_xor_M64 (x : Nat) :
    Minerva.mirrorBB (Minerva.M64 ^^^ x) = Minerva.M64 ^^^ Minerva.mirrorBB x := by
  apply Nat.eq_of_testBit_eq
  intro i
  rw [Nat.testBit_xor, testBit_mirrorBB, testBit_mirrorBB, Nat.testBit_xor]
  by_cases hi : i < 64
  · rw [decide_eq_true hi, Bool.true_and, Bool.true_and]
    have hM : ∀ n : Nat, n < 64 → Minerva.M64.testBit n = true := by
      intro n hn
      have h := (fun m : Fin 64 => (by decide :
        ∀ m : Fin 64, Minerva.M64.testBit (m : Nat) = true) m)
      exact h ⟨n, hn⟩
    rw [hM _ (xor56_lt hi), hM _ hi]
  · rw [decide_eq_false hi, Bool.false_and, Bool.false_and]
    have hM : Minerva.M64.testBit i = false := by
      have h1 : Minerva.M64 < 2 ^ i :=
        lt_of_lt_of_le (show Minerva.M64 < 2 ^ 64 by norm_num [Minerva.M64])
          (Nat.pow_le_pow_right (by norm_num) (le_of_not_lt hi))
      exact Nat.testBit_eq_false_of_lt h1
    rw [hM]
    rfl

/-- `mirrorBB` of zero. -/
theorem mirrorBB_zero : Minerva.mirrorBB 0 = 0 := by decide

/-- `mirrorBB` is injective at zero on 64-bit words. -/
theorem mirrorBB_eq_zero_iff (x : Nat) (hx : x < 2 ^ 64) :
    Minerva.mirrorBB x = 0 ↔ x = 0 := by
  constructor
  · intro h
    apply Nat.eq_of_testBit_eq
    intro i
    rw [Nat.zero_testBit]
    by_cases hi : i < 64
    · have h2 := congrArg (fun y => y.testBit (i ^^^ 56)) h
      simp only [Nat.zero_testBit] at h2
      rw [testBit_mirrorBB_lt x (xor56_lt hi), xor56_xor56] at h2
      exact h2
    · exact Nat.testBit_eq_false_of_lt (lt_of_lt_of_le hx
        (Nat.pow_le_pow_right (by norm_num) (le_of_not_lt hi)))
  · intro h
    rw [h, mirrorBB_zero]

/-- The rank mirror permutes `range 64`. -/
theorem range64_mirror_perm :
    ((List.range 64).map (fun i => i ^^^ 56)).Perm (List.range 64) := by decide

/-- Counting over `range 64` is invariant under the rank mirror. -/
theorem range64_countP_mirror (p : Nat → Bool) :
    (List.range 64).countP (fun i => p (i ^^^ 56)) = (List.range 64).countP p := by
  calc (List.range 64).countP (fun i => p (i ^^^ 56))
      = ((List.range 64).map (fun i => i ^^^ 56)).countP p :=
        (List.countP_map p _ _).symm
    _ = (List.range 64).countP p := range64_mirror_perm.countP_eq p

/-- Popcount is invariant under `mirrorBB`. -/
theorem popc_mirrorBB (x : Nat) : Minerva.popc (Minerva.mirrorBB x) = Minerva.popc x := by
  unfold Minerva.popc
  calc (List.range 64).countP (fun i => (Minerva.mirrorBB x).testBit i)
      = (List.range 64).countP (fun i => x.testBit (i ^^^ 56)) := by
        refine List.countP_congr ?_
        intro i hi
        rw [testBit_mirrorBB_lt x (List.mem_range.mp hi)]
    _ = (List.range 64).countP (fun i => x.testBit i) :=
        range64_countP_mirror (fun i => x.testBit i)

/-- Summing a function over a filtered list equals summing its
if-guarded version over the whole list. -/
theorem sum_map_filter {α : Type _} [AddCommMonoid α] (p : Nat → Bool)
    (g : Nat → α) (l : List Nat) :
    ((l.filter p).map g).sum = (l.map (fun i => if p i then g i else 0)).sum := by
  induction l with
  | nil => rfl
  | cons a l ih =>
    rw [List.filter_cons]
    by_cases h : p a = true
    · simp only [h, if_true, List.map_cons, List.sum_cons, ih]
    · simp only [h, if_false, List.map_cons, List.sum_cons, ih, Bool.false_eq_true,
        zero_add]

/-- Summing over `range 64` is invariant under the rank mirror. -/
theorem range64_sum_mirror {α : Type _} [AddCommMonoid α] (F : Nat → α) :
    ((List.range 64).map (fun i => F (i ^^^ 56))).sum
      = ((List.range 64).map F).sum := by
  calc ((List.range 64).map (fun i => F (i ^^^ 56))).sum
      = (((List.range 64).map (fun i => i ^^^ 56)).map F).sum := by
        rw [List.map_map]
        rfl
    _ = ((List.range 64).map F).sum := (range64_mirror_perm.map F).sum_eq

/-- Summing a function over the set bits of a mirrored bitboard equals
summing the mirrored function over the set bits of the original. -/
theorem bits_mirrorBB_sum {α : Type _} [AddCommMonoid α] (x : Nat) (g : Nat → α) :
    ((Minerva.bits (Minerva.mirrorBB x)).map g).sum
      = ((Minerva.bits x).map (fun s => g (s ^^^ 56))).sum := by
  unfold Minerva.bits
  rw [List.filter_congr (fun i hi => testBit_mirrorBB_lt x (List.mem_range.mp hi))]
  rw [sum_map_filter, sum_map_filter]
  have hmap : (List.range 64).map (fun i => if x.testBit (i ^^^ 56) then g i else 0)
      = (List.range 64).map (fun i =>
          (fun j => if x.testBit j then g (j ^^^ 56) else 0) (i ^^^ 56)) := by
    refine List.map_congr_left ?_
    intro a _
    simp only [xor56_xor56]
  rw [hmap, range64_sum_mirror (fun j => if x.testBit j then g (j ^^^ 56) else 0)]

/-- `fileMask` bits are rank-symmetric. -/
theorem fileMask_rankSym : ∀ f : Fin 8, ∀ n : Fin 64,
    (Minerva.fileMask f).testBit ((n : Nat) ^^^ 56)
      = (Minerva.fileMask f).testBit n := by decide

/-- `fileMask` fits in 64 bits. -/
theorem fileMask_lt : ∀ f : Fin 8, Minerva.fileMask f < 2 ^ 64 := by decide

/-- Masking a mirrored board with a rank-symmetric 64-bit mask commutes
with mirroring. -/
theorem mirrorBB_and_rankSym (x y : Nat)
    (hy : ∀ n : Nat, n < 64 → y.testBit (n ^^^ 56) = y.testBit n) :
    Minerva.mirrorBB x &&& y = Minerva.mirrorBB (x &&& y) := by
  apply Nat.eq_of_testBit_eq
  intro i
  rw [Nat.testBit_and, testBit_mirrorBB, testBit_mirrorBB, Nat.testBit_and]
  by_cases hi : i < 64
  · rw [decide_eq_true hi, Bool.true_and, Bool.true_and, hy i hi]
  · rw [decide_eq_false hi]
    simp

/-- Members of `bits x` are below 64. -/
theorem mem_bits {x s : Nat} (h : s ∈ Minerva.bits x) : s < 64 := by
  unfold Minerva.bits at h
  exact List.mem_range.mp (List.mem_filter.mp h).1

/-- The piece bitboards of the mirrored position are the mirrored
bitboards of the opposite colour. -/
theorem pieces_mirrorFlip (b : Minerva.EvalBoard) (pt : Nat) (c : Minerva.Color) :
    (Minerva.mirrorFlip b).pieces pt c
      = Minerva.mirrorBB (b.pieces pt (Minerva.swapColor c)) := by
  have hbig : ∀ x1 x2 x3 x4 x5 x6 : Nat, ∀ n : Nat,
      [x1, x2, x3, x4, x5, x6].getD (n + 6) 0 = 0 := by
    intro x1 x2 x3 x4 x5 x6 n
    refine List.getD_eq_default _ _ ?_
    simp only [List.length_cons, List.length_nil]
    omega
  cases c <;>
    simp only [Minerva.mirrorFlip, Minerva.mirrorKeep, Minerva.swapColor,
      Minerva.EvalBoard.pieces] <;>
    rcases pt with _ | _ | _ | _ | _ | _ | pt <;>
    first
      | rw [hbig, hbig, mirrorBB_zero]
      | simp only [List.getD_cons_zero, List.getD_cons_succ]

/-- The own-occupancy of the mirrored position. -/
theorem us_mirrorFlip (b : Minerva.EvalBoard) (c : Minerva.Color) :
    (Minerva.mirrorFlip b).us c = Minerva.mirrorBB (b.us (Minerva.swapColor c)) := by
  cases c <;>
    simp only [Minerva.mirrorFlip, Minerva.mirrorKeep, Minerva.swapColor,
      Minerva.EvalBoard.us, mirrorBB_or]

/-- The total occupancy of the mirrored position. -/
theorem occ_mirrorFlip (b : Minerva.EvalBoard) :
    (Minerva.mirrorFlip b).occ = Minerva.mirrorBB b.occ := by
  unfold Minerva.EvalBoard.occ
  rw [us_mirrorFlip, us_mirrorFlip, mirrorBB_or]
  simp only [Minerva.swapColor]
  rw [Nat.lor_comm]

/-- The phase index is mirror-invariant. -/
theorem phaseOf_mirrorFlip (b : Minerva.EvalBoard) :
    Minerva.phaseOf (Minerva.mirrorFlip b) = Minerva.phaseOf b := by
  unfold Minerva.phaseOf
  simp only [pieces_mirrorFlip, popc_mirrorBB, Minerva.swapColor]
  have h : ∀ pt : Nat,
      Minerva.popc (b.pieces pt .black) + Minerva.popc (b.pieces pt .white)
        = Minerva.popc (b.pieces pt .white) + Minerva.popc (b.pieces pt .black) :=
    fun pt => Nat.add_comm _ _
  rw [h 1, h 2, h 3, h 4]

/-- The bishop-pair terms negate under mirroring. -/
theorem bishopPair_mirrorFlip (b : Minerva.EvalBoard) :
    Minerva.bishopPairMg (Minerva.mirrorFlip b) = -Minerva.bishopPairMg b
    ∧ Minerva.bishopPairEg (Minerva.mirrorFlip b) = -Minerva.bishopPairEg b := by
  unfold Minerva.bishopPairMg Minerva.bishopPairEg
  simp only [Minerva.mirrorFlip, Minerva.mirrorKeep, popc_mirrorBB]
  constructor <;> split_ifs <;> omega

/-- Doubled-pawn counts are mirror-invariant. -/
theorem doubledCount_mirrorBB (p : Nat) :
    Minerva.doubledCount (Minerva.mirrorBB p) = Minerva.doubledCount p := by
  unfold Minerva.doubledCount
  congr 1
  refine List.map_congr_left ?_
  intro f hf
  have hf8 : f < 8 := List.mem_range.mp hf
  rw [mirrorBB_and_rankSym p (Minerva.fileMask f)
    (fun n hn => fileMask_rankSym ⟨f, hf8⟩ ⟨n, hn⟩), popc_mirrorBB]

/-- Rank symmetry of the adjacent-files mask. -/
theorem adjMask_rankSym (f : Nat) (hf : f < 8) : ∀ n : Nat, n < 64 →
    ((if f > 0 then Minerva.fileMask (f - 1) else 0) |||
      (if f < 7 then Minerva.fileMask (f + 1) else 0)).testBit (n ^^^ 56)
    = ((if f > 0 then Minerva.fileMask (f - 1) else 0) |||
      (if f < 7 then Minerva.fileMask (f + 1) else 0)).testBit n := by
  intro n hn
  rw [Nat.testBit_or, Nat.testBit_or]
  have hz : ∀ m : Nat, (0 : Nat).testBit m = false := Nat.zero_testBit
  congr 1
  · split_ifs with h1
    · exact fileMask_rankSym ⟨f - 1, by omega⟩ ⟨n, hn⟩
    · rw [hz, hz]
  · split_ifs with h1
    · exact fileMask_rankSym ⟨f + 1, by omega⟩ ⟨n, hn⟩
    · rw [hz, hz]

/-- Isolated-pawn counts are mirror-invariant (64-bit pawn boards). -/
theorem isolatedCount_mirrorBB (p : Nat) (hp : p < 2 ^ 64) :
    Minerva.isolatedCount (Minerva.mirrorBB p) = Minerva.isolatedCount p := by
  unfold Minerva.isolatedCount
  congr 1
  refine List.map_congr_left ?_
  intro f hf
  have hf8 : f < 8 := List.mem_range.mp hf
  dsimp only
  rw [mirrorBB_and_rankSym p (Minerva.fileMask f)
    (fun n hn => fileMask_rankSym ⟨f, hf8⟩ ⟨n, hn⟩),
    mirrorBB_and_rankSym p _ (adjMask_rankSym f hf8), popc_mirrorBB]
  refine if_congr (and_congr
    (not_congr (mirrorBB_eq_zero_iff (p &&& Minerva.fileMask f)
      (lt_of_le_of_lt Nat.and_le_left hp)))
    (mirrorBB_eq_zero_iff _ (lt_of_le_of_lt Nat.and_le_left hp))) rfl rfl

/-- The doubled/isolated pawn terms negate under mirroring. -/
theorem pawnStruct_mirrorFlip (b : Minerva.EvalBoard)
    (hwp : b.wp < 2 ^ 64) (hbp : b.bp < 2 ^ 64) :
    Minerva.pawnStructMg (Minerva.mirrorFlip b) = -Minerva.pawnStructMg b
    ∧ Minerva.pawnStructEg (Minerva.mirrorFlip b) = -Minerva.pawnStructEg b := by
  unfold Minerva.pawnStructMg Minerva.pawnStructEg
  simp only [Minerva.mirrorFlip, Minerva.mirrorKeep, doubledCount_mirrorBB,
    isolatedCount_mirrorBB b.wp hwp, isolatedCount_mirrorBB b.bp hbp]
  constructor <;> ring

/-- The knight-rim terms negate under mirroring. -/
theorem knightRim_mirrorFlip (b : Minerva.EvalBoard) :
    Minerva.knightRimMg (Minerva.mirrorFlip b) = -Minerva.knightRimMg b
    ∧ Minerva.knightRimEg (Minerva.mirrorFlip b) = -Minerva.knightRimEg b := by
  have hrim : ∀ x : Nat, Minerva.rimCount (Minerva.mirrorBB x) = Minerva.rimCount x := by
    intro x
    unfold Minerva.rimCount
    rw [bits_mirrorBB_sum]
    congr 1
    refine List.map_congr_left ?_
    intro s hs
    have hs64 : s < 64 := mem_bits hs
    have h : ∀ t : Fin 64,
        ((((t : Nat) ^^^ 56) % 8 = 0 ∨ ((t : Nat) ^^^ 56) % 8 = 7 ∨
          ((t : Nat) ^^^ 56) / 8 = 0 ∨ ((t : Nat) ^^^ 56) / 8 = 7) ↔
        ((t : Nat) % 8 = 0 ∨ (t : Nat) % 8 = 7 ∨
          (t : Nat) / 8 = 0 ∨ (t : Nat) / 8 = 7)) := by decide
    exact if_congr (h ⟨s, hs64⟩) rfl rfl
  unfold Minerva.knightRimMg Minerva.knightRimEg
  simp only [Minerva.mirrorFlip, Minerva.mirrorKeep, hrim]
  constructor <;> ring

/-- The rook open/semi-open file bonus is mirror-invariant for 64-bit
pawn boards. -/
theorem rookFileScore_mirrorBB (rk own enemy : Nat) (hown : own < 2 ^ 64)
    (hen : enemy < 2 ^ 64) (openB semiB : Int) :
    Minerva.rookFileScore (Minerva.mirrorBB rk) (Minerva.mirrorBB own)
      (Minerva.mirrorBB enemy) openB semiB
    = Minerva.rookFileScore rk own enemy openB semiB := by
  unfold Minerva.rookFileScore
  rw [bits_mirrorBB_sum]
  congr 1
  refine List.map_congr_left ?_
  intro s hs
  have hs64 : s < 64 := mem_bits hs
  have hf : (s ^^^ 56) % 8 = s % 8 :=
    (by decide : ∀ t : Fin 64, ((t : Nat) ^^^ 56) % 8 = (t : Nat) % 8) ⟨s, hs64⟩
  rw [hf]
  have h8 : s % 8 < 8 := Nat.mod_lt _ (by norm_num)
  have hfm : ∀ n : Nat, n < 64 →
      (Minerva.fileMask (s % 8)).testBit (n ^^^ 56)
        = (Minerva.fileMask (s % 8)).testBit n := by
    intro n hn
    exact fileMask_rankSym ⟨s % 8, h8⟩ ⟨n, hn⟩
  dsimp only
  rw [mirrorBB_and_rankSym own (Minerva.fileMask (s % 8)) hfm,
    mirrorBB_and_rankSym enemy (Minerva.fileMask (s % 8)) hfm]
  have h1 := mirrorBB_eq_zero_iff (own &&& Minerva.fileMask (s % 8))
    (lt_of_le_of_lt Nat.and_le_left hown)
  have h2 := mirrorBB_eq_zero_iff (enemy &&& Minerva.fileMask (s % 8))
    (lt_of_le_of_lt Nat.and_le_left hen)
  exact if_congr (and_congr (not_congr (not_congr h1)) (not_congr (not_congr h2)))
    rfl (if_congr (and_congr (not_congr (not_congr h1)) (not_congr h2)) rfl rfl)

/-- The rook-placement terms negate under mirroring. -/
theorem rookFile_mirrorFlip (b : Minerva.EvalBoard)
    (hwp : b.wp < 2 ^ 64) (hbp : b.bp < 2 ^ 64) :
    Minerva.rookFileMg (Minerva.mirrorFlip b) = -Minerva.rookFileMg b
    ∧ Minerva.rookFileEg (Minerva.mirrorFlip b) = -Minerva.rookFileEg b := by
  unfold Minerva.rookFileMg Minerva.rookFileEg
  simp only [Minerva.mirrorFlip, Minerva.mirrorKeep]
  rw [rookFileScore_mirrorBB _ _ _ hbp hwp, rookFileScore_mirrorBB _ _ _ hwp hbp,
    rookFileScore_mirrorBB _ _ _ hbp hwp, rookFileScore_mirrorBB _ _ _ hwp hbp]
  constructor <;> ring

/-- The piece scan of the mirrored position returns the colour-swapped
piece of the mirrored square, provided no square is occupied by both
colours. -/
theorem atSq_mirrorFlip (b : Minerva.EvalBoard)
    (hcross : b.us .white &&& b.us .black = 0) (sq : Nat) (hsq : sq < 64) :
    (Minerva.mirrorFlip b).atSq sq
      = (b.atSq (sq ^^^ 56)).map (fun pc => (pc.1, Minerva.swapColor pc.2)) := by
  have hub := congrArg (fun y => y.testBit (sq ^^^ 56)) hcross
  simp only [Nat.testBit_and, Nat.zero_testBit, Minerva.EvalBoard.us] at hub
  simp only [Minerva.EvalBoard.atSq, Minerva.mirrorFlip, Minerva.mirrorKeep,
    testBit_mirrorBB, decide_eq_true hsq, Bool.true_and]
  by_cases hb : (b.bp ||| b.bn ||| b.bbi ||| b.br ||| b.bq ||| b.bk).testBit
      (sq ^^^ 56) = true
  · rw [hb, Bool.and_true] at hub
    simp only [Nat.testBit_or, Bool.or_eq_false_iff] at hub
    obtain ⟨⟨⟨⟨⟨h1, h2⟩, h3⟩, h4⟩, h5⟩, h6⟩ := hub
    simp only [h1, h2, h3, h4, h5, h6, Bool.false_eq_true, if_false]
    split_ifs <;> simp [Minerva.swapColor]
  · have hb2 : (b.bp ||| b.bn ||| b.bbi ||| b.br ||| b.bq ||| b.bk).testBit
        (sq ^^^ 56) = false := by
      revert hb
      cases (b.bp ||| b.bn ||| b.bbi ||| b.br ||| b.bq ||| b.bk).testBit
        (sq ^^^ 56) <;> simp
    simp only [Nat.testBit_or, Bool.or_eq_false_iff] at hb2
    obtain ⟨⟨⟨⟨⟨h1, h2⟩, h3⟩, h4⟩, h5⟩, h6⟩ := hb2
    simp only [h1, h2, h3, h4, h5, h6, Bool.false_eq_true, if_false]
    split_ifs <;> simp [Minerva.swapColor]

/-- One square's PST terms negate under mirroring. -/
theorem pstTerm_mirrorFlip (b : Minerva.EvalBoard)
    (hcross : b.us .white &&& b.us .black = 0) (sq : Nat) (hsq : sq < 64) :
    Minerva.pstTermMg (Minerva.mirrorFlip b) sq
        = -Minerva.pstTermMg b (sq ^^^ 56)
    ∧ Minerva.pstTermEg (Minerva.mirrorFlip b) sq
        = -Minerva.pstTermEg b (sq ^^^ 56) := by
  unfold Minerva.pstTermMg Minerva.pstTermEg
  rw [atSq_mirrorFlip b hcross sq hsq]
  cases hat : b.atSq (sq ^^^ 56) with
  | none => simp
  | some pc =>
    obtain ⟨pt, c⟩ := pc
    cases c <;>
      simp [Minerva.swapColor, Minerva.mirror, xor56_xor56]

/-- Negation passes through a mapped sum. -/
theorem sum_map_neg (l : List Nat) (g : Nat → Int) :
    (l.map (fun i => -g i)).sum = -((l.map g).sum) := by
  induction l with
  | nil => simp
  | cons a l ih => simp [List.map_cons, List.sum_cons, ih]; ring

/-- The PST buckets negate under mirroring. -/
theorem pst_mirrorFlip (b : Minerva.EvalBoard)
    (hcross : b.us .white &&& b.us .black = 0) :
    Minerva.pstMg (Minerva.mirrorFlip b) = -Minerva.pstMg b
    ∧ Minerva.pstEg (Minerva.mirrorFlip b) = -Minerva.pstEg b := by
  constructor
  · unfold Minerva.pstMg
    rw [List.map_congr_left (fun i hi =>
      (pstTerm_mirrorFlip b hcross i (List.mem_range.mp hi)).1)]
    rw [show (fun i => -Minerva.pstTermMg b (i ^^^ 56))
        = (fun i => (fun j => -Minerva.pstTermMg b j) (i ^^^ 56)) from rfl]
    rw [range64_sum_mirror (fun j => -Minerva.pstTermMg b j)]
    exact sum_map_neg _ _
  · unfold Minerva.pstEg
    rw [List.map_congr_left (fun i hi =>
      (pstTerm_mirrorFlip b hcross i (List.mem_range.mp hi)).2)]
    rw [show (fun i => -Minerva.pstTermEg b (i ^^^ 56))
        = (fun i => (fun j => -Minerva.pstTermEg b j) (i ^^^ 56)) from rfl]
    rw [range64_sum_mirror (fun j => -Minerva.pstTermEg b j)]
    exact sum_map_neg _ _

/-- The rank mirror in square arithmetic: for a rank `a` and file `c`
below 8, `(a·8 + c) ^^^ 56 = (7 − a)·8 + c`. -/
theorem xorRank (a c : Nat) (ha : a < 8) (hc : c < 8) :
    (a * 8 + c) ^^^ 56 = (7 - a) * 8 + c :=
  (by decide : ∀ a c : Fin 8, ((a : Nat) * 8 + c) ^^^ 56 = (7 - (a : Nat)) * 8 + c)
    ⟨a, ha⟩ ⟨c, hc⟩

/-- The least set bit of a single-bit word. -/
theorem lsb_shift (t : Nat) (ht : t < 64) : Minerva.lsb (1 <<< t) = t :=
  (by decide : ∀ t : Fin 64, Minerva.lsb (1 <<< (t : Nat)) = (t : Nat)) ⟨t, ht⟩

/-- `mirrorBB` maps a single bit to its rank mirror. -/
theorem mirrorBB_single (t : Nat) (ht : t < 64) :
    Minerva.mirrorBB (1 <<< t) = 1 <<< (t ^^^ 56) :=
  (by decide : ∀ t : Fin 64,
    Minerva.mirrorBB (1 <<< (t : Nat)) = 1 <<< ((t : Nat) ^^^ 56)) ⟨t, ht⟩

/-- `mirrorBB` is an involution on 64-bit words. -/
theorem mirrorBB_mirrorBB (x : Nat) (hx : x < 2 ^ 64) :
    Minerva.mirrorBB (Minerva.mirrorBB x) = x := by
  apply Nat.eq_of_testBit_eq
  intro i
  by_cases hi : i < 64
  · rw [testBit_mirrorBB_lt _ hi, testBit_mirrorBB_lt _ (xor56_lt hi), xor56_xor56]
  · rw [Nat.testBit_eq_false_of_lt (lt_of_lt_of_le (mirrorBB_lt _)
      (Nat.pow_le_pow_right (by norm_num) (le_of_not_lt hi))),
      Nat.testBit_eq_false_of_lt (lt_of_lt_of_le hx
      (Nat.pow_le_pow_right (by norm_num) (le_of_not_lt hi)))]

/-- A white shield read on the mirrored pawns equals the black shield
read on the original pawns. -/
theorem shieldFilePen_mirror (pawns : Nat) (f0 q : Nat) (hq : q < 8) (df : Int) :
    Minerva.shieldFilePen (Minerva.mirrorBB pawns) (f0 : Int)
        ((7 - q : Nat) : Int) 1 df
      = Minerva.shieldFilePen pawns (f0 : Int) (q : Int) (-1) df := by
  unfold Minerva.shieldFilePen
  by_cases hf : (f0 : Int) + df < 0 ∨ (f0 : Int) + df > 7
  · rw [if_pos hf, if_pos hf]
  · rw [if_neg hf, if_neg hf]
    push_neg at hf
    obtain ⟨hf1, hf2⟩ := hf
    have hg8 : ((f0 : Int) + df).toNat < 8 := by omega
    dsimp only
    have hbit1 : (Minerva.mirrorBB pawns).testBit
          ((((7 - q : Nat) : Int) + 1).toNat * 8 + ((f0 : Int) + df).toNat)
        = pawns.testBit (((q : Int) + -1).toNat * 8 + ((f0 : Int) + df).toNat)
        ∨ ¬(1 ≤ q) := by
      by_cases h1 : 1 ≤ q
      · left
        rw [show ((((7 - q : Nat) : Int) + 1).toNat * 8 + ((f0 : Int) + df).toNat)
            = (8 - q) * 8 + ((f0 : Int) + df).toNat from by omega]
        rw [testBit_mirrorBB_lt pawns (by omega)]
        rw [xorRank (8 - q) (((f0 : Int) + df).toNat) (by omega) hg8]
        congr 1
        omega
      · right; exact h1
    have hbit2 : (Minerva.mirrorBB pawns).testBit
          ((((7 - q : Nat) : Int) + 2 * 1).toNat * 8 + ((f0 : Int) + df).toNat)
        = pawns.testBit (((q : Int) + 2 * -1).toNat * 8 + ((f0 : Int) + df).toNat)
        ∨ ¬(2 ≤ q) := by
      by_cases h2 : 2 ≤ q
      · left
        rw [show ((((7 - q : Nat) : Int) + 2 * 1).toNat * 8 + ((f0 : Int) + df).toNat)
            = (9 - q) * 8 + ((f0 : Int) + df).toNat from by omega]
        rw [testBit_mirrorBB_lt pawns (by omega)]
        rw [xorRank (9 - q) (((f0 : Int) + df).toNat) (by omega) hg8]
        congr 1
        omega
      · right; exact h2
    have hc1 : decide ((0:Int) ≤ ((7 - q : Nat) : Int) + 1 ∧ ((7 - q : Nat) : Int) + 1 < 8)
        = decide ((0:Int) ≤ (q : Int) + -1 ∧ (q : Int) + -1 < 8) := by
      simp only [decide_eq_decide]
      omega
    have hc2 : decide ((0:Int) ≤ ((7 - q : Nat) : Int) + 2 * 1 ∧ ((7 - q : Nat) : Int) + 2 * 1 < 8)
        = decide ((0:Int) ≤ (q : Int) + 2 * -1 ∧ (q : Int) + 2 * -1 < 8) := by
      simp only [decide_eq_decide]
      omega
    rw [hc1, hc2]
    rcases hbit1 with hbit1 | hq1
    · rw [hbit1]
      rcases hbit2 with hbit2 | hq2
      · rw [hbit2]
      · have hd2 : decide ((0:Int) ≤ (q : Int) + -1 ∧ (q : Int) + -1 < 8) = true ∨
            decide ((0:Int) ≤ (q : Int) + 2 * -1 ∧ (q : Int) + 2 * -1 < 8) = false := by
          right
          simp only [decide_eq_false_iff_not]
          omega
        rcases hd2 with hd2 | hd2
        · rw [hd2]
          have hd3 : decide ((0:Int) ≤ (q : Int) + 2 * -1 ∧ (q : Int) + 2 * -1 < 8) = false := by
            simp only [decide_eq_false_iff_not]
            omega
          rw [hd3]
          simp
        · rw [hd2]
          simp
    · have hd1 : decide ((0:Int) ≤ (q : Int) + -1 ∧ (q : Int) + -1 < 8) = false := by
        simp only [decide_eq_false_iff_not]
        omega
      have hd2 : decide ((0:Int) ≤ (q : Int) + 2 * -1 ∧ (q : Int) + 2 * -1 < 8) = false := by
        simp only [decide_eq_false_iff_not]
        omega
      rw [hd1, hd2]
      simp

/-- The rank mirror preserves the file coordinate. -/
theorem xor56_mod8 (t : Nat) (ht : t < 64) : (t ^^^ 56) % 8 = t % 8 :=
  (by decide : ∀ t : Fin 64, ((t : Nat) ^^^ 56) % 8 = (t : Nat) % 8) ⟨t, ht⟩

/-- The rank mirror complements the rank coordinate. -/
theorem xor56_div8 (t : Nat) (ht : t < 64) : (t ^^^ 56) / 8 = 7 - t / 8 :=
  (by decide : ∀ t : Fin 64, ((t : Nat) ^^^ 56) / 8 = 7 - (t : Nat) / 8) ⟨t, ht⟩

/-- The converse direction of `shieldFilePen_mirror`, through the
involution. -/
theorem shieldFilePen_mirror2 (pawns : Nat) (hp : pawns < 2 ^ 64)
    (f0 q : Nat) (hq : q < 8) (df : Int) :
    Minerva.shieldFilePen (Minerva.mirrorBB pawns) (f0 : Int)
        ((7 - q : Nat) : Int) (-1) df
      = Minerva.shieldFilePen pawns (f0 : Int) (q : Int) 1 df := by
  have h := shieldFilePen_mirror (Minerva.mirrorBB pawns) f0 (7 - q) (by omega) df
  rw [mirrorBB_mirrorBB pawns hp, show 7 - (7 - q) = q from by omega] at h
  exact h.symm

/-- `kingShieldPen` with its let-bindings inlined. -/
theorem kingShieldPen_eq (b : Minerva.EvalBoard) (c : Minerva.Color) :
    Minerva.kingShieldPen b c =
      ([-1, 0, 1] : List Int).foldl (fun acc df =>
        let p := Minerva.shieldFilePen (b.pieces 0 c)
          ((b.kingSq c % 8 : Nat) : Int) ((b.kingSq c / 8 : Nat) : Int)
          (if c = .white then 1 else -1) df
        (acc.1 + p.1, acc.2 + p.2)) (0, 0) := rfl

/-- The king-shield penalty pairs swap colours under mirroring, for
positions whose kings are single bits. -/
theorem kingShieldPen_mirrorFlip (b : Minerva.EvalBoard) (kW kB : Nat)
    (hkW : b.wk = 1 <<< kW) (hW : kW < 64)
    (hkB : b.bk = 1 <<< kB) (hB : kB < 64)
    (hwp : b.wp < 2 ^ 64) :
    Minerva.kingShieldPen (Minerva.mirrorFlip b) Minerva.Color.white
        = Minerva.kingShieldPen b Minerva.Color.black
    ∧ Minerva.kingShieldPen (Minerva.mirrorFlip b) Minerva.Color.black
        = Minerva.kingShieldPen b Minerva.Color.white := by
  have hksW0 : b.kingSq Minerva.Color.white = kW := by
    unfold Minerva.EvalBoard.kingSq
    have h5 : b.pieces 5 Minerva.Color.white = b.wk := rfl
    rw [h5, hkW, lsb_shift kW hW]
  have hksB0 : b.kingSq Minerva.Color.black = kB := by
    unfold Minerva.EvalBoard.kingSq
    have h5 : b.pieces 5 Minerva.Color.black = b.bk := rfl
    rw [h5, hkB, lsb_shift kB hB]
  have hksWm : (Minerva.mirrorFlip b).kingSq Minerva.Color.white = kB ^^^ 56 := by
    unfold Minerva.EvalBoard.kingSq
    rw [pieces_mirrorFlip]
    have h5 : b.pieces 5 (Minerva.swapColor Minerva.Color.white) = b.bk := rfl
    rw [h5, hkB, mirrorBB_single kB hB, lsb_shift _ (xor56_lt hB)]
  have hksBm : (Minerva.mirrorFlip b).kingSq Minerva.Color.black = kW ^^^ 56 := by
    unfold Minerva.EvalBoard.kingSq
    rw [pieces_mirrorFlip]
    have h5 : b.pieces 5 (Minerva.swapColor Minerva.Color.black) = b.wk := rfl
    rw [h5, hkW, mirrorBB_single kW hW, lsb_shift _ (xor56_lt hW)]
  have hpWm : (Minerva.mirrorFlip b).pieces 0 Minerva.Color.white
      = Minerva.mirrorBB b.bp := by
    rw [pieces_mirrorFlip]
    have h0 : b.pieces 0 (Minerva.swapColor Minerva.Color.white) = b.bp := rfl
    rw [h0]
  have hpBm : (Minerva.mirrorFlip b).pieces 0 Minerva.Color.black
      = Minerva.mirrorBB b.wp := by
    rw [pieces_mirrorFlip]
    have h0 : b.pieces 0 (Minerva.swapColor Minerva.Color.black) = b.wp := rfl
    rw [h0]
  have hpW0 : b.pieces 0 Minerva.Color.white = b.wp := rfl
  have hpB0 : b.pieces 0 Minerva.Color.black = b.bp := rfl
  constructor
  · rw [kingShieldPen_eq, kingShieldPen_eq, hksWm, hksB0, hpWm, hpB0,
      xor56_mod8 kB hB, xor56_div8 kB hB,
      if_pos rfl, if_neg (by decide : ¬(Minerva.Color.black = Minerva.Color.white))]
    refine List.foldl_ext _ _ _ ?_
    intro acc df hdf
    dsimp only
    rw [shieldFilePen_mirror b.bp (kB % 8) (kB / 8) (by omega) df]
  · rw [kingShieldPen_eq, kingShieldPen_eq, hksBm, hksW0, hpBm, hpW0,
      xor56_mod8 kW hW, xor56_div8 kW hW,
      if_pos rfl, if_neg (by decide : ¬(Minerva.Color.black = Minerva.Color.white))]
    refine List.foldl_ext _ _ _ ?_
    intro acc df hdf
    dsimp only
    rw [shieldFilePen_mirror2 b.wp hwp (kW % 8) (kW / 8) (by omega) df]

/-- The king-shield terms negate under mirroring (single-bit kings). -/
theorem kingShield_mirrorFlip (b : Minerva.EvalBoard) (kW kB : Nat)
    (hkW : b.wk = 1 <<< kW) (hW : kW < 64)
    (hkB : b.bk = 1 <<< kB) (hB : kB < 64)
    (hwp : b.wp < 2 ^ 64) :
    Minerva.kingShieldMg (Minerva.mirrorFlip b) = -Minerva.kingShieldMg b
    ∧ Minerva.kingShieldEg (Minerva.mirrorFlip b) = -Minerva.kingShieldEg b := by
  obtain ⟨h1, h2⟩ := kingShieldPen_mirrorFlip b kW kB hkW hW hkB hB hwp
  unfold Minerva.kingShieldMg Minerva.kingShieldEg
  rw [h1, h2]
  constructor <;> ring

/-- `mirrorBB` distributes over bitwise and. -/
theorem mirrorBB_and (x y : Nat) :
    Minerva.mirrorBB (x &&& y) = Minerva.mirrorBB x &&& Minerva.mirrorBB y := by
  apply Nat.eq_of_testBit_eq
  intro i
  rw [Nat.testBit_and, testBit_mirrorBB, testBit_mirrorBB, testBit_mirrorBB,
    Nat.testBit_and]
  by_cases hi : i < 64
  · rw [decide_eq_true hi]
    simp
  · rw [decide_eq_false hi]
    simp

/-- Knight attacks commute with the rank mirror. -/
theorem knightAtt_mirror (sq : Nat) (h : sq < 64) :
    Minerva.knightAtt (sq ^^^ 56) = Minerva.mirrorBB (Minerva.knightAtt sq) :=
  (by decide : ∀ t : Fin 64, Minerva.knightAtt ((t : Nat) ^^^ 56)
    = Minerva.mirrorBB (Minerva.knightAtt (t : Nat))) ⟨sq, h⟩

/-- A sliding ray through the mirrored occupancy, started at the
mirrored rank with the vertical direction negated, is the mirror of the
original ray. -/
theorem ray_mirror (occ : Nat) (df dr : Int) :
    ∀ (steps : Nat) (f r : Int),
      Minerva.ray (Minerva.mirrorBB occ) f (7 - r) df (-dr) steps
        = Minerva.mirrorBB (Minerva.ray occ f r df dr steps) := by
  intro steps
  induction steps with
  | zero =>
    intro f r
    simp only [Minerva.ray]
    rw [mirrorBB_zero]
  | succ n ih =>
    intro f r
    simp only [Minerva.ray]
    unfold Minerva.sqId
    by_cases hin : 0 ≤ f + df ∧ f + df < 8 ∧ 0 ≤ r + dr ∧ r + dr < 8
    · have hin2 : 0 ≤ f + df ∧ f + df < 8 ∧ 0 ≤ 7 - r + -dr ∧ 7 - r + -dr < 8 := by
        obtain ⟨a, b, c, d⟩ := hin
        exact ⟨a, b, by omega, by omega⟩
      rw [if_pos hin, if_pos hin2]
      dsimp only
      obtain ⟨ha1, ha2, ha3, ha4⟩ := hin
      have ha : (r + dr).toNat < 8 := by omega
      have hc : (f + df).toNat < 8 := by omega
      have ht64 : (r + dr).toNat * 8 + (f + df).toNat < 64 := by omega
      have ht : ((r + dr).toNat * 8 + (f + df).toNat) ^^^ 56
          = (7 - r + -dr).toNat * 8 + (f + df).toNat := by
        rw [xorRank _ _ ha hc]
        have he : (7 - r + -dr).toNat = 7 - (r + dr).toNat := by omega
        rw [he]
      rw [mirrorBB_or, mirrorBB_single _ ht64, ht, ← ht]
      congr 1
      rw [testBit_mirrorBB_lt occ (xor56_lt ht64), xor56_xor56]
      by_cases hocc : occ.testBit ((r + dr).toNat * 8 + (f + df).toNat) = true
      · rw [if_pos hocc, if_pos hocc, mirrorBB_zero]
      · rw [if_neg hocc, if_neg hocc,
          show (7 : Int) - r + -dr = 7 - (r + dr) from by ring]
        exact ih (f + df) (r + dr)
    · have hin2 : ¬(0 ≤ f + df ∧ f + df < 8 ∧ 0 ≤ 7 - r + -dr ∧ 7 - r + -dr < 8) := by
        intro h2
        exact hin ⟨h2.1, h2.2.1, by omega, by omega⟩
      rw [if_neg hin, if_neg hin2]
      dsimp only
      rw [mirrorBB_zero]

/-- Swapping the last two operands of a three-way or. -/
theorem lor_swap (x a b : Nat) : x ||| a ||| b = x ||| b ||| a := by
  rw [Nat.lor_assoc, Nat.lor_comm a b, ← Nat.lor_assoc]

/-- Swapping both pairs of a four-way or. -/
theorem lor_swap2 (a b c d : Nat) : a ||| b ||| c ||| d = b ||| a ||| d ||| c := by
  rw [Nat.lor_comm a b, lor_swap]

/-- Rook attacks commute with the rank mirror. -/
theorem rookAtt_mirror (occ sq : Nat) (h : sq < 64) :
    Minerva.rookAtt (Minerva.mirrorBB occ) (sq ^^^ 56)
      = Minerva.mirrorBB (Minerva.rookAtt occ sq) := by
  unfold Minerva.rookAtt
  dsimp only
  rw [xor56_mod8 sq h]
  rw [show (((sq ^^^ 56) / 8 : Nat) : Int) = 7 - ((sq / 8 : Nat) : Int) from by
    rw [xor56_div8 sq h]; omega]
  rw [mirrorBB_or, mirrorBB_or, mirrorBB_or]
  have e1 := ray_mirror occ 1 0 7 ((sq % 8 : Nat) : Int) ((sq / 8 : Nat) : Int)
  rw [neg_zero] at e1
  have e2 := ray_mirror occ (-1) 0 7 ((sq % 8 : Nat) : Int) ((sq / 8 : Nat) : Int)
  rw [neg_zero] at e2
  have e3 := ray_mirror occ 0 (-1) 7 ((sq % 8 : Nat) : Int) ((sq / 8 : Nat) : Int)
  rw [neg_neg] at e3
  have e4 := ray_mirror occ 0 1 7 ((sq % 8 : Nat) : Int) ((sq / 8 : Nat) : Int)
  rw [e1, e2, e3, e4, lor_swap]

/-- Bishop attacks commute with the rank mirror. -/
theorem bishopAtt_mirror (occ sq : Nat) (h : sq < 64) :
    Minerva.bishopAtt (Minerva.mirrorBB occ) (sq ^^^ 56)
      = Minerva.mirrorBB (Minerva.bishopAtt occ sq) := by
  unfold Minerva.bishopAtt
  dsimp only
  rw [xor56_mod8 sq h]
  rw [show (((sq ^^^ 56) / 8 : Nat) : Int) = 7 - ((sq / 8 : Nat) : Int) from by
    rw [xor56_div8 sq h]; omega]
  rw [mirrorBB_or, mirrorBB_or, mirrorBB_or]
  have e1 := ray_mirror occ 1 (-1) 7 ((sq % 8 : Nat) : Int) ((sq / 8 : Nat) : Int)
  rw [neg_neg] at e1
  have e2 := ray_mirror occ 1 1 7 ((sq % 8 : Nat) : Int) ((sq / 8 : Nat) : Int)
  have e3 := ray_mirror occ (-1) (-1) 7 ((sq % 8 : Nat) : Int) ((sq / 8 : Nat) : Int)
  rw [neg_neg] at e3
  have e4 := ray_mirror occ (-1) 1 7 ((sq % 8 : Nat) : Int) ((sq / 8 : Nat) : Int)
  rw [e1, e2, e3, e4, lor_swap2]

/-- Queen attacks commute with the rank mirror. -/
theorem queenAtt_mirror (occ sq : Nat) (h : sq < 64) :
    Minerva.queenAtt (Minerva.mirrorBB occ) (sq ^^^ 56)
      = Minerva.mirrorBB (Minerva.queenAtt occ sq) := by
  unfold Minerva.queenAtt
  rw [rookAtt_mirror occ sq h, bishopAtt_mirror occ sq h, mirrorBB_or]

/-- Mobility of the mirrored position counts the other colour's
mobility in the original. -/
theorem mobilityCount_mirrorFlip (b : Minerva.EvalBoard) (c : Minerva.Color) :
    Minerva.mobilityCount (Minerva.mirrorFlip b) c
      = Minerva.mobilityCount b (Minerva.swapColor c) := by
  unfold Minerva.mobilityCount
  dsimp only
  simp only [us_mirrorFlip, occ_mirrorFlip, pieces_mirrorFlip]
  rw [← mirrorBB_xor_M64]
  rw [bits_mirrorBB_sum, bits_mirrorBB_sum, bits_mirrorBB_sum, bits_mirrorBB_sum]
  have hstep : ∀ (attL attR : Nat → Nat) (x : Nat),
      (∀ s, s < 64 → attL (s ^^^ 56) = Minerva.mirrorBB (attR s)) →
      ((Minerva.bits x).map (fun s => Minerva.popc (attL (s ^^^ 56)
          &&& Minerva.mirrorBB (Minerva.M64 ^^^ b.us (Minerva.swapColor c))))).sum
        = ((Minerva.bits x).map (fun s => Minerva.popc (attR s
          &&& (Minerva.M64 ^^^ b.us (Minerva.swapColor c))))).sum := by
    intro attL attR x hatt
    refine congrArg List.sum (List.map_congr_left ?_)
    intro s hs
    rw [hatt s (mem_bits hs), ← mirrorBB_and, popc_mirrorBB]
  rw [hstep Minerva.knightAtt Minerva.knightAtt _
      (fun s hs => knightAtt_mirror s hs),
    hstep (Minerva.bishopAtt (Minerva.mirrorBB b.occ)) (Minerva.bishopAtt b.occ) _
      (fun s hs => bishopAtt_mirror b.occ s hs),
    hstep (Minerva.rookAtt (Minerva.mirrorBB b.occ)) (Minerva.rookAtt b.occ) _
      (fun s hs => rookAtt_mirror b.occ s hs),
    hstep (Minerva.queenAtt (Minerva.mirrorBB b.occ)) (Minerva.queenAtt b.occ) _
      (fun s hs => queenAtt_mirror b.occ s hs)]

/-- The mobility terms negate under mirroring. -/
theorem mobility_mirrorFlip (b : Minerva.EvalBoard) :
    Minerva.mobilityMg (Minerva.mirrorFlip b) = -Minerva.mobilityMg b
    ∧ Minerva.mobilityEg (Minerva.mirrorFlip b) = -Minerva.mobilityEg b := by
  unfold Minerva.mobilityMg Minerva.mobilityEg
  rw [mobilityCount_mirrorFlip b .white, mobilityCount_mirrorFlip b .black]
  rw [show Minerva.swapColor .white = .black from rfl,
    show Minerva.swapColor .black = .white from rfl]
  constructor <;> ring

/-- The tempo term negates under the side-flipping mirror. -/
theorem tempo_mirrorFlip (b : Minerva.EvalBoard) :
    Minerva.tempoOf (Minerva.mirrorFlip b) = -Minerva.tempoOf b := by
  unfold Minerva.tempoOf Minerva.mirrorFlip Minerva.mirrorKeep
  cases hstm : b.stm <;> simp

/-- C5 (amended): the claimed identity `evaluate pos = −evaluate (mirror pos)`
fails for the code as written (see the counterexample); the symmetry the
code does satisfy is `evaluate (mirrorFlip pos) = evaluate pos` — mirroring
ranks, swapping colours AND flipping the side to move leaves the white-view
score negated and the side-to-move negation restores it — and it holds only
up to the passed-pawn and connected-rook terms, which are genuinely
asymmetric in the code (the white passed-pawn span starts at `sq+8` over
three files while the black span is all squares below `sq`, and
`connected_rooks` tests only the two lowest-index rooks); those two terms'
antisymmetry is therefore a hypothesis, alongside well-formedness of the
position (disjoint occupancies, 64-bit pawn boards, single-bit kings). -/
theorem C5_mirror_symmetry (b : Minerva.EvalBoard) (kW kB : Nat)
    (hcross : b.us .white &&& b.us .black = 0)
    (hwp : b.wp < 2 ^ 64) (hbp : b.bp < 2 ^ 64)
    (hkW : b.wk = 1 <<< kW) (hW : kW < 64)
    (hkB : b.bk = 1 <<< kB) (hB : kB < 64)
    (hpassMg : Minerva.passedMg (Minerva.mirrorFlip b) = -Minerva.passedMg b)
    (hpassEg : Minerva.passedEg (Minerva.mirrorFlip b) = -Minerva.passedEg b)
    (hconn : Minerva.connectedRooksTerm (Minerva.mirrorFlip b)
      = -Minerva.connectedRooksTerm b) :
    Minerva.evaluate (Minerva.mirrorFlip b) = Minerva.evaluate b := by
  have hmg : Minerva.mgScore (Minerva.mirrorFlip b) = -Minerva.mgScore b := by
    unfold Minerva.mgScore
    rw [(pst_mirrorFlip b hcross).1, (bishopPair_mirrorFlip b).1,
      (pawnStruct_mirrorFlip b hwp hbp).1, hpassMg,
      (knightRim_mirrorFlip b).1, (rookFile_mirrorFlip b hwp hbp).1, hconn,
      (kingShield_mirrorFlip b kW kB hkW hW hkB hB hwp).1,
      (mobility_mirrorFlip b).1, tempo_mirrorFlip b]
    ring
  have heg : Minerva.egScore (Minerva.mirrorFlip b) = -Minerva.egScore b := by
    unfold Minerva.egScore
    rw [(pst_mirrorFlip b hcross).2, (bishopPair_mirrorFlip b).2,
      (pawnStruct_mirrorFlip b hwp hbp).2, hpassEg,
      (knightRim_mirrorFlip b).2, (rookFile_mirrorFlip b hwp hbp).2, hconn,
      (kingShield_mirrorFlip b kW kB hkW hW hkB hB hwp).2,
      (mobility_mirrorFlip b).2, tempo_mirrorFlip b]
    ring
  unfold Minerva.evaluate
  dsimp only
  rw [hmg, heg, phaseOf_mirrorFlip]
  rw [show -Minerva.mgScore b * Minerva.phaseOf b
      + -Minerva.egScore b * (24 - Minerva.phaseOf b)
    = -(Minerva.mgScore b * Minerva.phaseOf b
      + Minerva.egScore b * (24 - Minerva.phaseOf b)) from by ring]
  rw [Int.neg_tdiv]
  rw [show (Minerva.mirrorFlip b).stm
    = (if b.stm = .white then Minerva.Color.black else Minerva.Color.white)
    from rfl]
  cases hs : b.stm <;> simp

/-- Witness for C5 at the king-and-rook endgame position: every
hypothesis holds by evaluation and the amended symmetry follows. -/
theorem C5_mirror_symmetry_witness :
    Minerva.krkBoard.us .white &&& Minerva.krkBoard.us .black = 0
    ∧ Minerva.evaluate (Minerva.mirrorFlip Minerva.krkBoard)
        = Minerva.evaluate Minerva.krkBoard :=
  ⟨by decide, C5_mirror_symmetry Minerva.krkBoard 6 62 (by decide) (by decide)
    (by decide) (by decide) (by decide) (by decide) (by decide)
    (by decide) (by decide) (by decide)⟩
